import Mathlib

/-!
# resticprofile: schedule permissions, the job-lifecycle orchestrator, the
environment-variable scanner and the process priority

A shallow embedding of `schedule/permission.go` (the `Permission` type, its
conversion from and to configuration tokens, and `CheckPermission`), a model of
the orchestration entry points `scheduleJobs`, `removeJobs` and `statusJobs`
that drive a scheduler `Handler`, and shallow embeddings of
`envscanner/scanner.go` (`ScanForEnvVariables`, `findNodeByKey`, `scanNode`) and
`priority/unix.go` (`SetNice`, `setNewProcessGroup`, `SetClass`).
-/

namespace Resticprofile

/-! ## `schedule/permission.go` -/

/-- Go: `type Permission int`. Every integer is a value of the type. -/
abbrev Permission := Int

/-- Go: `PermissionAuto Permission = iota`. -/
def PermissionAuto : Permission := 0
/-- Go: second constant of the `iota` block. -/
def PermissionSystem : Permission := 1
/-- Go: third constant of the `iota` block. -/
def PermissionUserBackground : Permission := 2
/-- Go: fourth constant of the `iota` block. -/
def PermissionUserLoggedOn : Permission := 3

/-- The string constants of package `constants` that `permission.go` refers to.
The package is not part of the sources at hand, so the five tokens are taken as
a parameter of every function that reads them. -/
structure Constants where
  SchedulePermissionAuto : String
  SchedulePermissionSystem : String
  SchedulePermissionUser : String
  SchedulePermissionUserLoggedIn : String
  SchedulePermissionUserLoggedOn : String

/-- Modelled from the spec: the values of the `constants` package, which is missing
from the sources. The spec calls them canonical lowercase tokens, names the
`auto` token, and the test of the systemd handler names `user_logged_on`; the
alias `user_logged_in` is the spelling of the constant's name. -/
def constants : Constants where
  SchedulePermissionAuto := "auto"
  SchedulePermissionSystem := "system"
  SchedulePermissionUser := "user"
  SchedulePermissionUserLoggedIn := "user_logged_in"
  SchedulePermissionUserLoggedOn := "user_logged_on"

/-- The five tokens are pairwise distinct. For the four tokens used as `case`
constants of one `switch` the Go compiler demands it; for the auto token it is
what makes it an unrecognised token. -/
def Constants.Distinct (c : Constants) : Prop :=
  c.SchedulePermissionSystem ≠ c.SchedulePermissionUser ∧
  c.SchedulePermissionSystem ≠ c.SchedulePermissionUserLoggedIn ∧
  c.SchedulePermissionSystem ≠ c.SchedulePermissionUserLoggedOn ∧
  c.SchedulePermissionUser ≠ c.SchedulePermissionUserLoggedIn ∧
  c.SchedulePermissionUser ≠ c.SchedulePermissionUserLoggedOn ∧
  c.SchedulePermissionUserLoggedIn ≠ c.SchedulePermissionUserLoggedOn ∧
  c.SchedulePermissionAuto ≠ c.SchedulePermissionSystem ∧
  c.SchedulePermissionAuto ≠ c.SchedulePermissionUser ∧
  c.SchedulePermissionAuto ≠ c.SchedulePermissionUserLoggedIn ∧
  c.SchedulePermissionAuto ≠ c.SchedulePermissionUserLoggedOn

instance (c : Constants) : Decidable c.Distinct := by
  unfold Constants.Distinct; infer_instance

/-- The tokens that have a `case` of their own in `PermissionFromConfig`. -/
def Constants.recognised (c : Constants) : List String :=
  [c.SchedulePermissionSystem, c.SchedulePermissionUser,
   c.SchedulePermissionUserLoggedIn, c.SchedulePermissionUserLoggedOn]

/-- The tokens that `Permission.String` can return. -/
def Constants.canonical (c : Constants) : List String :=
  [c.SchedulePermissionSystem, c.SchedulePermissionUser,
   c.SchedulePermissionUserLoggedOn, c.SchedulePermissionAuto]

/-- Go: `func PermissionFromConfig(permission string) Permission`, a `switch`
whose cases are tried in source order. -/
def PermissionFromConfig (c : Constants) (permission : String) : Permission :=
  if permission = c.SchedulePermissionSystem then PermissionSystem
  else if permission = c.SchedulePermissionUser then PermissionUserBackground
  else if permission = c.SchedulePermissionUserLoggedIn
      ∨ permission = c.SchedulePermissionUserLoggedOn then PermissionUserLoggedOn
  else PermissionAuto

/-- Go: `func (p Permission) String() string`. -/
def Permission.String (c : Constants) (p : Permission) : String :=
  if p = PermissionSystem then c.SchedulePermissionSystem
  else if p = PermissionUserBackground then c.SchedulePermissionUser
  else if p = PermissionUserLoggedOn then c.SchedulePermissionUserLoggedOn
  else c.SchedulePermissionAuto

/-- Go: `func CheckPermission(permission Permission, euid int) bool`. -/
def CheckPermission (permission : Permission) (euid : Int) : Bool :=
  if permission = PermissionSystem then decide (euid = 0)
  else true

/-! ## The job-lifecycle orchestrator

`scheduleJobs`, `removeJobs` and `statusJobs` are exercised by
`schedule_jobs_test.go`, but their bodies, the `Handler` interface and the job
description are not among the sources. They are modelled from sections 3, 4.2,
4.3 and 7 of the specification. A handler is a deterministic machine over an
arbitrary state type `σ`, so that any mock or backend behaviour, including one
that changes from call to call, is an instance. Every run returns, next to the
error result, the chronological list of handler calls it made. -/

/-- Modelled from the spec: the error values of the orchestrator, whose
declarations are missing. `ErrScheduledJobNotFound` is the distinguished
not-found condition of `RemoveJob`, `ErrJobCanBeRemovedOnly` the usage error of
querying a removal-only job, `ErrPermission` the failure raised when
`CheckPermission` answers false; `other` stands for any backend error. -/
inductive Error where
  | ErrScheduledJobNotFound
  | ErrJobCanBeRemovedOnly
  | ErrPermission
  | other (msg : String)
  deriving DecidableEq

/-- Modelled from the spec: the job description of section 3, whose type
declaration is missing: profile and command name, executable path, argument
vector, requested permission, flag set, recurrence strings and the path of the
originating configuration file. -/
structure Config where
  ProfileName : String
  CommandName : String
  Command : String
  Arguments : List String
  Permission : Permission
  Flags : List (String × String)
  Schedules : List String
  ConfigFile : String
  deriving DecidableEq

/-- Modelled from the spec: a job with zero recurrence strings is a removal-only
job (section 3); the accessor itself is missing from the sources. -/
def Config.RemoveOnly (job : Config) : Bool := job.Schedules.isEmpty

/-- Modelled from the spec: the `Handler` contract of section 4.2, whose
interface declaration is missing. Each operation reads the handler state and
returns its result with the next state; `ε` is the opaque type of parsed
recurrence events. -/
structure Handler (σ ε : Type) where
  Init : σ → Option Error × σ
  Close : σ → σ
  DetectSchedulePermission : Permission → σ → (Permission × Bool) × σ
  CheckPermission : Config → Permission → σ → (Bool × Option Error) × σ
  ParseSchedules : List String → σ → (List ε × Option Error) × σ
  DisplaySchedules : String → String → List String → σ → Option Error × σ
  CreateJob : Config → List ε → Permission → σ → Option Error × σ
  RemoveJob : Config → Permission → σ → Option Error × σ
  DisplayJobStatus : Config → σ → Option Error × σ
  DisplayStatus : String → σ → Option Error × σ

/-- One recorded handler call with what it returned. Per-job calls carry the
position of their job in the batch. -/
inductive Call where
  | Init (err : Option Error)
  | Close
  | DetectSchedulePermission (requested resolved : Permission) (confirmed : Bool)
  | CheckPermission (job : Nat) (permission : Permission) (allowed : Bool)
      (err : Option Error)
  | ParseSchedules (job : Nat) (schedules : List String) (err : Option Error)
  | DisplaySchedules (job : Nat) (profile command : String) (schedules : List String)
      (err : Option Error)
  | CreateJob (job : Nat) (permission : Permission) (err : Option Error)
  | RemoveJob (job : Nat) (permission : Permission) (err : Option Error)
  | DisplayJobStatus (job : Nat) (err : Option Error)
  | DisplayStatus (profile : String) (err : Option Error)
  deriving DecidableEq

/-- The batch position of the job a call was made for, if it is a per-job call. -/
def Call.job : Call → Option Nat
  | .CheckPermission k _ _ _ => some k
  | .ParseSchedules k _ _ => some k
  | .DisplaySchedules k _ _ _ _ => some k
  | .CreateJob k _ _ => some k
  | .RemoveJob k _ _ => some k
  | .DisplayJobStatus k _ => some k
  | _ => none

/-- Whether the call is an `Init`. -/
def Call.isInit : Call → Bool
  | .Init _ => true
  | _ => false

/-- Whether the call is a `Close`. -/
def Call.isClose : Call → Bool
  | .Close => true
  | _ => false

/-- Whether the call is a `DisplayStatus`. -/
def Call.isDisplayStatus : Call → Bool
  | .DisplayStatus _ _ => true
  | _ => false

/-- Whether the recorded call reported a failure: an error result, or a
`CheckPermission` that answered false. -/
def Call.failed : Call → Bool
  | .Init e => e.isSome
  | .Close => false
  | .DetectSchedulePermission _ _ _ => false
  | .CheckPermission _ _ allowed e => !allowed || e.isSome
  | .ParseSchedules _ _ e => e.isSome
  | .DisplaySchedules _ _ _ _ e => e.isSome
  | .CreateJob _ _ e => e.isSome
  | .RemoveJob _ _ e => e.isSome
  | .DisplayJobStatus _ e => e.isSome
  | .DisplayStatus _ e => e.isSome

/-- What a run, or a part of a run, produced: the error result (`none` is
success), the handler state it left, and the calls it made, oldest first. -/
structure Outcome (σ : Type) where
  err : Option Error
  state : σ
  calls : List Call

/-- Modelled from the spec: the bracket shared by the three entry points (step 1 of
each, section 4.3, code missing): `Init`, then the body, with `Close` guaranteed
on every exit path, "even if `Init` or any per-job operation failed" (section
4.2); a failing `Init` aborts the batch before any job is touched. -/
def withHandler {σ ε : Type} (h : Handler σ ε) (body : σ → Outcome σ) (s : σ) :
    Outcome σ :=
  match h.Init s with
  | (some e, s1) => ⟨some e, h.Close s1, [Call.Init (some e), Call.Close]⟩
  | (none, s1) =>
    let o := body s1
    ⟨o.err, h.Close o.state, Call.Init none :: (o.calls ++ [Call.Close])⟩

/-- Modelled from the spec: the fail-fast iteration over a batch, in batch order
(sections 4.3 and 5, code missing): the first job whose step returns an error
aborts the batch with that error, later jobs are not attempted. `k` is the
batch position of the head of the list. -/
def forJobs {σ : Type} (step : Nat → Config → σ → Outcome σ) :
    Nat → List Config → σ → Outcome σ
  | _, [], s => ⟨none, s, []⟩
  | k, job :: rest, s =>
    let o := step k job s
    match o.err with
    | some e => ⟨some e, o.state, o.calls⟩
    | none =>
      let r := forJobs step (k + 1) rest o.state
      ⟨r.err, r.state, o.calls ++ r.calls⟩

/-- Modelled from the spec: the feasibility check of one job (sections 4.3 and 7,
code missing): `CheckPermission` "returns false or errors" means infeasible.
Returns the error to abort with, if any. -/
def checkJob {σ ε : Type} (h : Handler σ ε) (permission : Permission) (k : Nat)
    (job : Config) (s : σ) : Outcome σ :=
  match h.CheckPermission job permission s with
  | ((allowed, some e), s1) => ⟨some e, s1, [Call.CheckPermission k permission allowed (some e)]⟩
  | ((false, none), s1) =>
    ⟨some Error.ErrPermission, s1, [Call.CheckPermission k permission false none]⟩
  | ((true, none), s1) => ⟨none, s1, [Call.CheckPermission k permission true none]⟩

/-- Modelled from the spec: the per-job part of Install (section 4.3, steps 4 and
5, code missing): `CheckPermission`, `ParseSchedules`, `DisplaySchedules`,
`CreateJob` with the parsed events and the resolved permission. A failure of
`CheckPermission`, `ParseSchedules` or `CreateJob` is returned at once; the
result of the presentation call `DisplaySchedules` is not among the aborting
ones. -/
def createJob {σ ε : Type} (h : Handler σ ε) (permission : Permission) (k : Nat)
    (job : Config) (s : σ) : Outcome σ :=
  let c := checkJob h permission k job s
  match c.err with
  | some e => ⟨some e, c.state, c.calls⟩
  | none =>
    match h.ParseSchedules job.Schedules c.state with
    | ((_, some e), s2) =>
      ⟨some e, s2, c.calls ++ [Call.ParseSchedules k job.Schedules (some e)]⟩
    | ((events, none), s2) =>
      match h.DisplaySchedules job.ProfileName job.CommandName job.Schedules s2 with
      | (de, s3) =>
        match h.CreateJob job events permission s3 with
        | (ce, s4) =>
          ⟨ce, s4, c.calls ++ [Call.ParseSchedules k job.Schedules none,
            Call.DisplaySchedules k job.ProfileName job.CommandName job.Schedules de,
            Call.CreateJob k permission ce]⟩

/-- Modelled from the spec: Install (section 4.3, code missing): bracket, success
at once on an empty batch, one `DetectSchedulePermission` seeded with the first
job's requested permission, then the jobs in order, fail-fast. -/
def scheduleJobs {σ ε : Type} (h : Handler σ ε) (configs : List Config) (s : σ) :
    Outcome σ :=
  withHandler h (fun s1 =>
    match configs with
    | [] => ⟨none, s1, []⟩
    | first :: _ =>
      match h.DetectSchedulePermission first.Permission s1 with
      | ((permission, confirmed), s2) =>
        let r := forJobs (createJob h permission) 0 configs s2
        ⟨r.err, r.state,
          Call.DetectSchedulePermission first.Permission permission confirmed :: r.calls⟩) s

/-- Modelled from the spec: the `RemoveJob` call of Remove (section 4.3, step 4,
code missing): the distinguished not-found condition is treated as success, any
other error is returned. -/
def removeCall {σ ε : Type} (h : Handler σ ε) (permission : Permission) (k : Nat)
    (job : Config) (s : σ) : Outcome σ :=
  match h.RemoveJob job permission s with
  | (some Error.ErrScheduledJobNotFound, s1) =>
    ⟨none, s1, [Call.RemoveJob k permission (some Error.ErrScheduledJobNotFound)]⟩
  | (e, s1) => ⟨e, s1, [Call.RemoveJob k permission e]⟩

/-- Modelled from the spec: the per-job part of Remove (section 4.3, steps 3 and 4,
code missing): a job carrying recurrence strings goes straight to removal; a
removal-only job runs `CheckPermission` first and a feasibility failure aborts. -/
def removeJob {σ ε : Type} (h : Handler σ ε) (permission : Permission) (k : Nat)
    (job : Config) (s : σ) : Outcome σ :=
  if job.RemoveOnly then
    let c := checkJob h permission k job s
    match c.err with
    | some e => ⟨some e, c.state, c.calls⟩
    | none =>
      let r := removeCall h permission k job c.state
      ⟨r.err, r.state, c.calls ++ r.calls⟩
  else
    removeCall h permission k job s

/-- Modelled from the spec: Remove (section 4.3, code missing): bracket, success at
once on an empty batch, permission resolved once as in Install, then the jobs in
order, fail-fast. -/
def removeJobs {σ ε : Type} (h : Handler σ ε) (configs : List Config) (s : σ) :
    Outcome σ :=
  withHandler h (fun s1 =>
    match configs with
    | [] => ⟨none, s1, []⟩
    | first :: _ =>
      match h.DetectSchedulePermission first.Permission s1 with
      | ((permission, confirmed), s2) =>
        let r := forJobs (removeJob h permission) 0 configs s2
        ⟨r.err, r.state,
          Call.DetectSchedulePermission first.Permission permission confirmed :: r.calls⟩) s

/-- Modelled from the spec: the per-job part of Status (section 4.3, step 3, code
missing): a removal-only job is a usage error that fails the call at once; for
a job with recurrence strings `DisplaySchedules` then `DisplayJobStatus`, each
failure returned to the caller (section 7). -/
def statusJob {σ ε : Type} (h : Handler σ ε) (k : Nat) (job : Config) (s : σ) :
    Outcome σ :=
  if job.RemoveOnly then ⟨some Error.ErrJobCanBeRemovedOnly, s, []⟩
  else
    match h.DisplaySchedules job.ProfileName job.CommandName job.Schedules s with
    | (some e, s1) =>
      ⟨some e, s1,
        [Call.DisplaySchedules k job.ProfileName job.CommandName job.Schedules (some e)]⟩
    | (none, s1) =>
      match h.DisplayJobStatus job s1 with
      | (e, s2) =>
        ⟨e, s2, [Call.DisplaySchedules k job.ProfileName job.CommandName job.Schedules none,
          Call.DisplayJobStatus k e]⟩

/-- Modelled from the spec: Status (section 4.3, code missing): bracket; on an
empty batch `DisplayStatus(profile)` and its result; otherwise the jobs in
order, fail-fast, then `DisplayStatus(profile)` once. -/
def statusJobs {σ ε : Type} (h : Handler σ ε) (profile : String)
    (configs : List Config) (s : σ) : Outcome σ :=
  withHandler h (fun s1 =>
    match configs with
    | [] =>
      match h.DisplayStatus profile s1 with
      | (e, s2) => ⟨e, s2, [Call.DisplayStatus profile e]⟩
    | _ :: _ =>
      let r := forJobs (statusJob h) 0 configs s1
      match r.err with
      | some e => ⟨some e, r.state, r.calls⟩
      | none =>
        match h.DisplayStatus profile r.state with
        | (e, s2) => ⟨e, s2, r.calls ++ [Call.DisplayStatus profile e]⟩) s

/-- The calls of a Status run over jobs that all report success: for each job, in
batch order from position `k`, `DisplaySchedules` then `DisplayJobStatus`. -/
def statusCalls : Nat → List Config → List Call
  | _, [] => []
  | k, job :: rest =>
    Call.DisplaySchedules k job.ProfileName job.CommandName job.Schedules none ::
      Call.DisplayJobStatus k none :: statusCalls (k + 1) rest

/-! ### Handlers and batches used as concrete inputs -/

/-- The job of `configForJob(command, at...)` in `schedule_jobs_test.go`: profile
`"profile"`, the given command and recurrence strings, no requested permission. -/
def configForJob (command : String) (at_ : List String) : Config where
  ProfileName := "profile"
  CommandName := command
  Command := ""
  Arguments := []
  Permission := PermissionAuto
  Flags := []
  Schedules := at_
  ConfigFile := ""

/-- A batch of three jobs: a job with a recurrence string, a removal-only job, and
another job with a recurrence string. -/
def mixedBatch : List Config :=
  [configForJob "backup" ["sched"], configForJob "check" [], configForJob "forget" ["daily"]]

/-- The mock of `schedule_jobs_test.go`: every operation succeeds,
`DetectSchedulePermission` resolves to `PermissionUserBackground`, and
`CreateJob` and `RemoveJob` return the given results. The state counts calls. -/
def mockHandler (createResult removeResult : Option Error) : Handler Nat Unit where
  Init := fun n => (none, n + 1)
  Close := fun n => n + 1
  DetectSchedulePermission := fun _ n => ((PermissionUserBackground, true), n + 1)
  CheckPermission := fun _ _ n => ((true, none), n + 1)
  ParseSchedules := fun l n => ((l.map (fun _ => ()), none), n + 1)
  DisplaySchedules := fun _ _ _ n => (none, n + 1)
  CreateJob := fun _ _ _ n => (createResult, n + 1)
  RemoveJob := fun _ _ n => (removeResult, n + 1)
  DisplayJobStatus := fun _ n => (none, n + 1)
  DisplayStatus := fun _ n => (none, n + 1)

/-! ## Go errors -/

/-- Go: a value of the `error` interface, as far as `envscanner` and `priority`
observe it. `errno` is a `syscall.Errno`, `text` an error with a fixed message
(`errors.New`, `fmt.Errorf` without `%w`, or an error of a library), `wrapped`
the result of `fmt.Errorf` with a trailing `%w`: `msg` is the whole rendered
message and `err` what `Unwrap` returns. -/
inductive GoError where
  | errno (code : Nat)
  | text (msg : String)
  | wrapped (msg : String) (err : GoError)
  deriving DecidableEq

/-- Go: `err.Error()`. The message table of `syscall.Errno` is outside the
repository; an errno is rendered by its number. -/
def GoError.Error : GoError → String
  | .errno code => "errno " ++ toString code
  | .text msg => msg
  | .wrapped msg _ => msg

/-- Go: `errors.Unwrap(err)`. -/
def GoError.Unwrap : GoError → Option GoError
  | .wrapped _ err => some err
  | _ => none

/-- Go: `errors.Is(err, target)`: `err` or an error in its `Unwrap` chain equals
`target`. -/
def GoError.Is : GoError → GoError → Bool
  | .errno code, target => decide (GoError.errno code = target)
  | .text msg, target => decide (GoError.text msg = target)
  | .wrapped msg err, target => decide (GoError.wrapped msg err = target) || err.Is target

/-- Go: `fmt.Errorf(format, ..., err)` for a format that ends in `%w`; `text` is
the rendering of the format before the `%w`. -/
def Errorf (text : String) (err : GoError) : GoError :=
  .wrapped (text ++ err.Error) err

/-- A run-time panic of the Go program. -/
inductive Panic where
  | indexOutOfRange
  deriving DecidableEq

/-- What a Go function that may panic produces: its results, or the panic. -/
inductive Result (α : Type) where
  | ok (value : α)
  | panic (p : Panic)
  deriving DecidableEq

/-- The string `sub` occurs in `s` as a contiguous run of characters
(Go: `strings.Contains(s, sub)`). -/
def Contains (s sub : String) : Prop :=
  ∃ pre post : List Char, s.data = pre ++ sub.data ++ post

namespace Envscanner

/-! ## `envscanner/scanner.go` -/

/-- Go (`yaml.v3`): `type Kind uint32`. -/
abbrev Kind := Nat

/-- Go (`yaml.v3`): `DocumentNode Kind = 1 << iota`. -/
def DocumentNode : Kind := 1
/-- Go (`yaml.v3`): second kind of the `iota` block. -/
def SequenceNode : Kind := 2
/-- Go (`yaml.v3`): third kind of the `iota` block. -/
def MappingNode : Kind := 4
/-- Go (`yaml.v3`): fourth kind of the `iota` block. -/
def ScalarNode : Kind := 8
/-- Go (`yaml.v3`): fifth kind of the `iota` block. -/
def AliasNode : Kind := 16

/-- Go (`yaml.v3`): `yaml.Node`, with the four fields the scanner reads. `Content`
holds the children; the decoder stores no nil child. A mapping node lists its
entries as key, value, key, value. -/
inductive Node where
  | mk (Kind : Kind) (Tag : String) (Value : String) (Content : List Node)

/-- Field `Kind`. -/
def Node.Kind : Node → Kind
  | .mk kind _ _ _ => kind

/-- Field `Tag`. -/
def Node.Tag : Node → String
  | .mk _ tag _ _ => tag

/-- Field `Value`. -/
def Node.Value : Node → String
  | .mk _ _ value _ => value

/-- Field `Content`. -/
def Node.Content : Node → List Node
  | .mk _ _ _ content => content

/-- The zero `yaml.Node`, what `var root yaml.Node` holds before decoding. -/
def Node.zero : Node := .mk 0 "" "" []

mutual
/-- The node and all its descendants through `Content`, in document order. -/
def Node.subtree : Node → List Node
  | .mk kind tag value content => .mk kind tag value content :: subtrees content
/-- The subtrees of a list of children, concatenated. -/
def subtrees : List Node → List Node
  | [] => []
  | child :: rest => child.subtree ++ subtrees rest
end

/-- Every mapping node of the tree has an even number of children, as in every
tree the YAML decoder builds. -/
def Node.WellFormed (n : Node) : Prop :=
  ∀ m ∈ n.subtree, m.Kind = MappingNode → m.Content.length % 2 = 0

instance (n : Node) : Decidable n.WellFormed := by
  unfold Node.WellFormed; infer_instance

/-- The class `[A-Za-z_]` of `envVarRegex`. -/
def isNameStart (c : Char) : Bool :=
  ('A' ≤ c && c ≤ 'Z') || ('a' ≤ c && c ≤ 'z') || c == '_'

/-- The class `[A-Za-z0-9_]` of `envVarRegex`. -/
def isNameChar (c : Char) : Bool :=
  isNameStart c || ('0' ≤ c && c ≤ '9')

/-- Go: `envVarRegex` anchored at the start of the text: the literal `.Env.`, one
character of `[A-Za-z_]`, then as many of `[A-Za-z0-9_]` as follow (the star is
greedy). Returns the captured name. -/
def matchHere : List Char → Option (List Char)
  | '.' :: 'E' :: 'n' :: 'v' :: '.' :: c :: rest =>
    if isNameStart c then some (c :: rest.takeWhile isNameChar) else none
  | _ => none

/-- The successive matches of `envVarRegex` in a text, as the captured names: the
leftmost match first, each next search starting where the previous match ended.
`skip` counts the characters of the last match still to pass over. -/
def findAllNames : Nat → List Char → List (List Char)
  | _, [] => []
  | skip + 1, _ :: cs => findAllNames skip cs
  | 0, c :: cs =>
    match matchHere (c :: cs) with
    | some name => name :: findAllNames (4 + name.length) cs
    | none => findAllNames 0 cs

/-- Go: `envVarRegex.FindAllStringSubmatch(value, -1)`: one entry per match, holding
the matched text and the text of the capture group. -/
def FindAllStringSubmatch (value : String) : List (List String) :=
  (findAllNames 0 value.data).map
    (fun name => [String.mk (".Env.".data ++ name), String.mk name])

/-- Go: `foundVars[key] = struct{}{}` on a `map[string]struct{}`, kept as the list
of its keys: a key already present is not added again. -/
def mapInsert (foundVars : List String) (key : String) : List String :=
  if key ∈ foundVars then foundVars else foundVars ++ [key]

/-- Go: the body of `for _, match := range matches` in `scanNode`. -/
def addMatch (foundVars : List String) (m : List String) : List String :=
  if m.length > 1 then mapInsert foundVars (m.getD 1 "") else foundVars

mutual
/-- Go: `func scanNode(node *yaml.Node, foundVars map[string]struct{})`, returning
the updated map. The node is not nil here. -/
def scanNode : Node → List String → List String
  | .mk kind tag value content, foundVars =>
    scanNodes content
      (if kind = ScalarNode ∧ tag = "!!str" then
        (FindAllStringSubmatch value).foldl addMatch foundVars
      else foundVars)
/-- Go: `for _, child := range node.Content { scanNode(child, foundVars) }`. -/
def scanNodes : List Node → List String → List String
  | [], foundVars => foundVars
  | child :: rest, foundVars => scanNodes rest (scanNode child foundVars)
end

/-- Go: the inner loop of `findNodeByKey`, `for j := 0; j < len(valueNode.Content);
j += 2`, on the part of `Content` from index `j` on: the head is `Content[j]`, the
element after it `Content[j+1]`, whose absence is an index out of range. -/
def findNested : List Node → String → Result (Option Node)
  | [], _ => .ok none
  | [nestedKeyNode], nestedKey =>
    if nestedKeyNode.Value = nestedKey then .panic .indexOutOfRange else .ok none
  | nestedKeyNode :: value :: rest, nestedKey =>
    if nestedKeyNode.Value = nestedKey then .ok (some value) else findNested rest nestedKey

/-- Go: the outer loop of `findNodeByKey`, `for i := 0; i < len(root.Content);
i += 2`, on the part of `Content` from index `i` on. -/
def findTop : List Node → String → String → Result (Option Node)
  | [], _, _ => .ok none
  | [keyNode], topLevelKey, _ =>
    if keyNode.Value = topLevelKey then .panic .indexOutOfRange else .ok none
  | keyNode :: valueNode :: rest, topLevelKey, nestedKey =>
    if keyNode.Value = topLevelKey then
      if valueNode.Kind = MappingNode then findNested valueNode.Content nestedKey
      else .ok none
    else findTop rest topLevelKey nestedKey

/-- Go: `func findNodeByKey(root *yaml.Node, topLevelKey, nestedKey string)
*yaml.Node`; `none` is the nil pointer. -/
def findNodeByKey (root : Node) (topLevelKey nestedKey : String) : Result (Option Node) :=
  if root.Kind ≠ MappingNode then .ok none
  else findTop root.Content topLevelKey nestedKey

/-- Go: lines 39 to 42 of `ScanForEnvVariables`: the lookup under `"profiles"`,
and under `"groups"` when that returned nil. -/
def targetNode (mainNode : Node) (profileOrGroupName : String) : Result (Option Node) :=
  match findNodeByKey mainNode "profiles" profileOrGroupName with
  | .panic p => .panic p
  | .ok (some node) => .ok (some node)
  | .ok none => findNodeByKey mainNode "groups" profileOrGroupName

/-- Go: `slices.Sort(result)` on strings. Go orders strings byte by byte, which on
UTF-8 text is the order of the code point sequences. -/
def slicesSort (result : List String) : List String :=
  result.insertionSort (fun a b => a.data ≤ b.data)

/-- The two library calls of `ScanForEnvVariables`: `os.ReadFile` and
`yaml.Unmarshal(data, &root)`, the latter returning the root it filled in. `δ`
is the type of file contents. -/
structure Host (δ : Type) where
  ReadFile : String → Except GoError δ
  Unmarshal : δ → Except GoError Node

/-- Go: `func ScanForEnvVariables(configFile string, profileOrGroupName string)
([]string, error)`. A nil slice is the empty list. The keys of `foundVars` are
ranged over in the order they were added; the sort makes the result the same
for every order. -/
def ScanForEnvVariables {δ : Type} (host : Host δ) (configFile profileOrGroupName : String) :
    Result (List String × Option GoError) :=
  match host.ReadFile configFile with
  | .error err =>
    .ok ([], some (Errorf ("failed to read config file " ++ configFile ++ ": ") err))
  | .ok data =>
    match host.Unmarshal data with
    | .error err =>
      .ok ([], some (Errorf ("failed to unmarshal YAML from " ++ configFile ++ ": ") err))
    | .ok root =>
      match root.Content with
      | [] => .ok ([], none)
      | mainNode :: _ =>
        match targetNode mainNode profileOrGroupName with
        | .panic p => .panic p
        | .ok none => .ok ([], none)
        | .ok (some target) => .ok (slicesSort (scanNode target []), none)

/-! ### The claims' words -/

/-- The entries of a mapping node as key and value pairs. -/
def keyValuePairs : List Node → List (Node × Node)
  | key :: value :: rest => (key, value) :: keyValuePairs rest
  | _ => []

/-- What `findNodeByKey` is to return, in the words of its description: nil when
`root` is not a mapping; otherwise the value paired with the first nested key
equal to `nestedKey` inside the value of the first top-level key equal to
`topLevelKey`, provided that value is a mapping. -/
def findNodeByKeySpec (root : Node) (topLevelKey nestedKey : String) : Option Node :=
  if root.Kind = MappingNode then
    ((keyValuePairs root.Content).find? (fun kv => kv.1.Value = topLevelKey)).bind
      (fun kv =>
        if kv.2.Kind = MappingNode then
          ((keyValuePairs kv.2.Content).find? (fun kv2 => kv2.1.Value = nestedKey)).map
            Prod.snd
        else none)
  else none

/-- The name is a key of a top-level `section` mapping of the main node. -/
def IsKeyOfSection (mainNode : Node) (section_ name : String) : Prop :=
  mainNode.Kind = MappingNode ∧
  ∃ kv ∈ keyValuePairs mainNode.Content, kv.1.Value = section_ ∧
    kv.2.Kind = MappingNode ∧ ∃ kv2 ∈ keyValuePairs kv.2.Content, kv2.1.Value = name

instance (mainNode : Node) (section_ name : String) :
    Decidable (IsKeyOfSection mainNode section_ name) := by
  unfold IsKeyOfSection; infer_instance

/-- A valid variable name: not empty, a first character in `[A-Za-z_]`, every
character in `[A-Za-z0-9_]`. -/
def IsIdentifier (name : String) : Prop :=
  (∃ c rest, name.data = c :: rest ∧ isNameStart c = true) ∧
  ∀ c ∈ name.data, isNameChar c = true

/-- The text `.Env.` followed by `name` occurs in `value`, `name` an identifier. -/
def TextOccurs (name value : String) : Prop :=
  IsIdentifier name ∧ Contains value (".Env." ++ name)

/-- The node is a string scalar (kind `ScalarNode`, tag `!!str`) and one of the
matches of `envVarRegex` in its value captures `name`. -/
def Captures (m : Node) (name : String) : Prop :=
  m.Kind = ScalarNode ∧ m.Tag = "!!str" ∧
  ∃ mt ∈ FindAllStringSubmatch m.Value, mt.getD 1 "" = name

/-- The text `.Env.` followed by `name` occurs in `value` at a place where no
character of `[A-Za-z0-9_]` follows it: `name` is the longest run there. -/
def OccursMaximally (name value : String) : Prop :=
  ∃ pre post : List Char, value.data = pre ++ ".Env.".data ++ name.data ++ post ∧
    ∀ c, post.head? = some c → isNameChar c = false

/-! ### Documents used as concrete inputs -/

/-- A string scalar. -/
def str (value : String) : Node := .mk ScalarNode "!!str" value []
/-- A mapping node. -/
def map (content : List Node) : Node := .mk MappingNode "!!map" "" content
/-- A sequence node. -/
def seq (content : List Node) : Node := .mk SequenceNode "!!seq" "" content
/-- A document node. -/
def doc (content : List Node) : Node := .mk DocumentNode "" "" content

/-- The document of `TestScanForEnvVariables` in `scanner_test.go`, decoded. -/
def testDocument : Node :=
  doc [map [
    str "global", map [str "restic-binary", str "/usr/local/bin/restic"],
    str "profiles", map [
      str "profile-with-vars", map [
        str "repository", str "/data/.Env.REPO_SUFFIX",
        str "password-file", str ".Env.HOME/.restic-password",
        str "source", seq [str ".Env.HOME/documents", str "/srv/data"],
        str "env", map [str "AWS_KEY", str ".Env.MY_AWS_KEY"]],
      str "profile-no-vars", map [
        str "repository", str "/data/no-vars-repo",
        str "source", seq [str "/srv/other_data"]]],
    str "groups", map [
      str "group-with-vars", map [
        str "profiles", seq [str "profile-with-vars"],
        str "schedules", map [
          str "backup", map [
            str "at", str "*-*-* 01:00:00",
            str "env", map [str "EXTRA_VAR", str ".Env.GROUP_VAR"]]]]]]]

/-- A host on which every file reads and decodes to the given document. -/
def hostOf (root : Node) : Host Unit where
  ReadFile := fun _ => .ok ()
  Unmarshal := fun _ => .ok root

/-- A host on which no file can be read, as in
`TestScanForEnvVariables_FileNotFound`. -/
def unreadableHost : Host Unit where
  ReadFile := fun _ => .error (.text "no such file or directory")
  Unmarshal := fun _ => .ok Node.zero

/-- A host on which files read but do not decode, as in
`TestScanForEnvVariables_InvalidYaml`. -/
def undecodableHost : Host Unit where
  ReadFile := fun _ => .ok ()
  Unmarshal := fun _ => .error (.text "yaml: did not find expected ',' or ']'")

/-- A section with three scalars: one with a tag of its own, one whose variable
name has a shorter identifier as a beginning, and one where `.Env.` is followed
by `Env.B`. -/
def gatedSection : Node :=
  map [
    str "secret", .mk ScalarNode "!vault" ".Env.FOO" [],
    str "cache", str ".Env.HOME_DIR",
    str "nested", str ".Env.Env.B"]

/-- A main node whose profile `p` is `gatedSection`. -/
def gatedMain : Node :=
  map [str "profiles", map [str "p", gatedSection]]

/-- The document of `gatedMain`. -/
def gatedDocument : Node :=
  doc [gatedMain]

/-- A main node with a profile and a group of the same name `x`. -/
def shadowedMain : Node :=
  map [
    str "profiles", map [str "x", map [str "repository", str ".Env.FROM_PROFILE"]],
    str "groups", map [str "x", map [str "repository", str ".Env.FROM_GROUP"]]]

/-- The document of `shadowedMain`. -/
def shadowedDocument : Node :=
  doc [shadowedMain]

end Envscanner

namespace Priority

/-! ## `priority/unix.go` -/

/-- Go: `selfPID = 0`. -/
def selfPID : Int := 0

/-- Go (`x/sys/unix`): `PRIO_PGRP`. -/
def PRIO_PGRP : Int := 1

/-- Go (`x/sys/unix`): `EPERM`. -/
def EPERM : GoError := .errno 1

/-- Go (`x/sys/unix`): `EACCES`. -/
def EACCES : GoError := .errno 13

/-- Go: the value an `int` holds after an arithmetic operation whose exact result
is `x`, on a platform with 64-bit `int`: `x` reduced into the two's complement
range from `-2^63` to `2^63 - 1`. -/
def wrapInt64 (x : Int) : Int :=
  (x + 2 ^ 63) % 2 ^ 64 - 2 ^ 63

/-- The three system calls of `unix.go`, each reading the state of the system and
returning its results with the next state, so that a later call may answer
differently from an earlier one. -/
structure Unix (σ : Type) where
  Getpriority : Int → Int → σ → (Int × Option GoError) × σ
  Setpriority : Int → Int → Int → σ → Option GoError × σ
  Setpgid : Int → Int → σ → Option GoError × σ

/-- One system call with its arguments. -/
inductive Syscall where
  | Getpriority (which who : Int)
  | Setpriority (which who prio : Int)
  | Setpgid (pid pgid : Int)
  deriving DecidableEq

/-- What a call of `SetNice` produced: the returned error (`none` is nil), the
state of the system it left, and the system calls it made, oldest first. -/
structure Run (σ : Type) where
  err : Option GoError
  state : σ
  calls : List Syscall

/-- Go: `func setNewProcessGroup(priority int) error`. -/
def setNewProcessGroup {σ : Type} (u : Unix σ) (priority : Int) (s : σ) : Run σ :=
  match u.Setpgid selfPID 0 s with
  | (some err, s1) =>
    ⟨some (Errorf ("cannot set new process group (priority " ++ toString priority ++ "): ")
      err), s1, [Syscall.Setpgid selfPID 0]⟩
  | (none, s1) =>
    match u.Setpriority PRIO_PGRP selfPID priority s1 with
    | (some err, s2) =>
      ⟨some (Errorf ("cannot set priority " ++ toString priority ++ " on new process group: ")
        err), s2, [Syscall.Setpgid selfPID 0, Syscall.Setpriority PRIO_PGRP selfPID priority]⟩
    | (none, s2) =>
      ⟨none, s2, [Syscall.Setpgid selfPID 0, Syscall.Setpriority PRIO_PGRP selfPID priority]⟩

/-- Go: `func SetNice(priority int) error`. The `clog.Debugf` lines are left out.
The value `Getpriority` returns lies between 1 and 40, far from where
`20-currentPriority` could overflow an `int`; the subtraction is the exact one,
which `wrapInt64` shows to be the value Go computes for every such value. -/
def SetNice {σ : Type} (u : Unix σ) (priority : Int) (s : σ) : Run σ :=
  if priority < -20 ∨ priority > 19 then
    ⟨some (.text ("unexpected priority value " ++ toString priority)), s, []⟩
  else
    match u.Getpriority PRIO_PGRP selfPID s with
    | ((currentPriority, err), s1) =>
      if err = none ∧ 20 - currentPriority ≥ priority then
        ⟨none, s1, [Syscall.Getpriority PRIO_PGRP selfPID]⟩
      else
        match u.Setpriority PRIO_PGRP selfPID priority s1 with
        | (some err, s2) =>
          if err.Is EPERM || err.Is EACCES then
            let r := setNewProcessGroup u priority s2
            ⟨r.err, r.state, Syscall.Getpriority PRIO_PGRP selfPID ::
              Syscall.Setpriority PRIO_PGRP selfPID priority :: r.calls⟩
          else
            ⟨some (Errorf ("cannot set process group priority to " ++ toString priority
                ++ ", restic will run with the default priority: ") err), s2,
              [Syscall.Getpriority PRIO_PGRP selfPID,
               Syscall.Setpriority PRIO_PGRP selfPID priority]⟩
        | (none, s2) =>
          ⟨none, s2, [Syscall.Getpriority PRIO_PGRP selfPID,
            Syscall.Setpriority PRIO_PGRP selfPID priority]⟩

/-- Go: `func SetClass(class int) error`. -/
def SetClass {σ : Type} (u : Unix σ) (class_ : Int) (s : σ) : Run σ :=
  SetNice u class_ s

/-! ### A system used as concrete input -/

/-- A system whose process group has the raw priority `current`, whose
`Setpriority` answers with the next entry of the state (a list of results, nil
once exhausted) and whose `Setpgid` returns `pgidResult`. -/
def scriptedUnix (current : Int) (getErr pgidResult : Option GoError) :
    Unix (List (Option GoError)) where
  Getpriority := fun _ _ s => ((current, getErr), s)
  Setpriority := fun _ _ _ s => (s.headD none, s.tail)
  Setpgid := fun _ _ s => (pgidResult, s)

end Priority

/-! ## Lemmas about the orchestrator model -/

section Lemmas

variable {σ ε : Type}

theorem getLast?_cons_cons_concat (a b : Call) (l : List Call) (x : Call) :
    (a :: b :: (l ++ [x])).getLast? = some x := by
  rw [← List.cons_append, ← List.cons_append]
  exact List.getLast?_concat _

theorem job_none_of_isInit (c : Call) (hc : c.isInit = true) : c.job = none := by
  cases c <;> simp [Call.isInit, Call.job] at hc ⊢

theorem job_none_of_isClose (c : Call) (hc : c.isClose = true) : c.job = none := by
  cases c <;> simp [Call.isClose, Call.job] at hc ⊢

theorem job_none_of_isDisplayStatus (c : Call) (hc : c.isDisplayStatus = true) :
    c.job = none := by
  cases c <;> simp [Call.isDisplayStatus, Call.job] at hc ⊢

theorem forJobs_calls_job (step : Nat → Config → σ → Outcome σ)
    (hT : ∀ k job s, ∀ c ∈ (step k job s).calls, c.job = some k) :
    ∀ (configs : List Config) (k : Nat) (s : σ), ∀ c ∈ (forJobs step k configs s).calls,
      ∃ j, c.job = some j ∧ k ≤ j ∧ j < k + configs.length := by
  intro configs
  induction configs with
  | nil => intro k s c hc; simp [forJobs] at hc
  | cons job rest ih =>
    intro k s c hc
    have hhead : ∀ c ∈ (step k job s).calls,
        ∃ j, c.job = some j ∧ k ≤ j ∧ j < k + (job :: rest).length := by
      intro c hc
      exact ⟨k, hT k job s c hc, le_refl k, by simp⟩
    unfold forJobs at hc
    cases hstep : (step k job s).err with
    | some e =>
      simp only [hstep] at hc
      exact hhead c hc
    | none =>
      simp only [hstep, List.mem_append] at hc
      rcases hc with hc | hc
      · exact hhead c hc
      · obtain ⟨j, hj, hle, hlt⟩ := ih (k + 1) _ c hc
        exact ⟨j, hj, by omega, by simp only [List.length_cons]; omega⟩

theorem forJobs_abort (step : Nat → Config → σ → Outcome σ) (c0 : Call) (e : Error)
    (hT : ∀ k job s, ∀ c ∈ (step k job s).calls, c.job = some k)
    (hB : ∀ k job s, c0 ∈ (step k job s).calls → (step k job s).err = some e) :
    ∀ (configs : List Config) (k : Nat) (s : σ), c0 ∈ (forJobs step k configs s).calls →
      (forJobs step k configs s).err = some e ∧
      ∀ c ∈ (forJobs step k configs s).calls, ∀ j i, c.job = some j → c0.job = some i →
        j ≤ i := by
  intro configs
  induction configs with
  | nil => intro k s hc; simp [forJobs] at hc
  | cons job rest ih =>
    intro k s hc
    unfold forJobs at hc ⊢
    cases hstep : (step k job s).err with
    | some e1 =>
      simp only [hstep] at hc ⊢
      have := hB k job s hc
      rw [hstep] at this
      refine ⟨this, ?_⟩
      intro c hcin j i hj hi
      have h1 := hT k job s c hcin
      have h2 := hT k job s c0 hc
      rw [h1] at hj; rw [h2] at hi
      cases hj; cases hi
      exact le_refl _
    | none =>
      simp only [hstep, List.mem_append] at hc ⊢
      rcases hc with hc | hc
      · have := hB k job s hc
        rw [hstep] at this
        cases this
      · obtain ⟨herr, hle⟩ := ih (k + 1) _ hc
        refine ⟨herr, ?_⟩
        intro c hcin j i hj hi
        rcases hcin with hcin | hcin
        · have h1 := hT k job s c hcin
          obtain ⟨i1, hi1, hge, -⟩ := forJobs_calls_job step hT rest (k + 1) _ c0 hc
          rw [h1] at hj; rw [hi1] at hi
          cases hj; cases hi
          omega
        · exact hle c hcin j i hj hi

theorem forJobs_single (step : Nat → Config → σ → Outcome σ) (k : Nat) (job : Config)
    (s : σ) :
    (forJobs step k [job] s).err = (step k job s).err ∧
    (forJobs step k [job] s).calls = (step k job s).calls := by
  unfold forJobs
  cases hstep : (step k job s).err with
  | some e => simp [hstep]
  | none => simp [hstep, forJobs]

theorem forJobs_cons_some (step : Nat → Config → σ → Outcome σ) (k : Nat) (job : Config)
    (rest : List Config) (s : σ) (e : Error) (hstep : (step k job s).err = some e) :
    forJobs step k (job :: rest) s = ⟨some e, (step k job s).state, (step k job s).calls⟩ := by
  rw [forJobs]
  simp only [hstep]

theorem forJobs_cons_none (step : Nat → Config → σ → Outcome σ) (k : Nat) (job : Config)
    (rest : List Config) (s : σ) (hstep : (step k job s).err = none) :
    forJobs step k (job :: rest) s
      = ⟨(forJobs step (k + 1) rest (step k job s).state).err,
         (forJobs step (k + 1) rest (step k job s).state).state,
         (step k job s).calls ++ (forJobs step (k + 1) rest (step k job s).state).calls⟩ := by
  rw [forJobs]
  simp only [hstep]

theorem forJobs_calls_at (step : Nat → Config → σ → Outcome σ) :
    ∀ (configs : List Config) (i : Nat) (job : Config) (k : Nat) (s : σ),
      configs[i]? = some job → (forJobs step k (configs.take i) s).err = none →
      ∀ c ∈ (step (k + i) job (forJobs step k (configs.take i) s).state).calls,
        c ∈ (forJobs step k configs s).calls := by
  intro configs
  induction configs with
  | nil => intro i job k s hi; simp at hi
  | cons a rest ih =>
    intro i job k s hi hpre c hc
    cases i with
    | zero =>
      simp only [List.getElem?_cons_zero, Option.some.injEq] at hi
      subst hi
      simp only [List.take_zero, forJobs, Nat.add_zero] at hc
      cases hstep : (step k a s).err with
      | some e => rw [forJobs_cons_some _ _ _ _ _ e hstep]; exact hc
      | none => rw [forJobs_cons_none _ _ _ _ _ hstep]; exact List.mem_append_left _ hc
    | succ n =>
      simp only [List.getElem?_cons_succ] at hi
      rw [List.take_succ_cons] at hpre hc
      cases hstep : (step k a s).err with
      | some e =>
        rw [forJobs_cons_some _ _ _ _ _ e hstep] at hpre
        cases hpre
      | none =>
        rw [forJobs_cons_none _ _ _ _ _ hstep] at hpre hc
        rw [forJobs_cons_none _ _ _ _ _ hstep]
        have hk : k + (n + 1) = k + 1 + n := by omega
        rw [hk] at hc
        exact List.mem_append_right _ (ih n job (k + 1) _ hi hpre c hc)

theorem forJobs_head_calls (step : Nat → Config → σ → Outcome σ) (k : Nat) (job : Config)
    (rest : List Config) (s : σ) :
    ∀ c ∈ (step k job s).calls, c ∈ (forJobs step k (job :: rest) s).calls := by
  intro c hc
  unfold forJobs
  cases hstep : (step k job s).err with
  | some e => simpa [hstep] using hc
  | none => simp only [hstep]; exact List.mem_append_left _ hc

theorem forJobs_calls_origin (step : Nat → Config → σ → Outcome σ) :
    ∀ (configs : List Config) (k : Nat) (s : σ), ∀ c ∈ (forJobs step k configs s).calls,
      ∃ j job s1, configs[j]? = some job ∧ c ∈ (step (k + j) job s1).calls := by
  intro configs
  induction configs with
  | nil => intro k s c hc; simp [forJobs] at hc
  | cons a rest ih =>
    intro k s c hc
    unfold forJobs at hc
    have hhead : c ∈ (step k a s).calls →
        ∃ j job s1, (a :: rest)[j]? = some job ∧ c ∈ (step (k + j) job s1).calls :=
      fun hc => ⟨0, a, s, by simp, by simpa using hc⟩
    cases hstep : (step k a s).err with
    | some e =>
      simp only [hstep] at hc
      exact hhead hc
    | none =>
      simp only [hstep, List.mem_append] at hc
      rcases hc with hc | hc
      · exact hhead hc
      · obtain ⟨j, job, s1, hj, hin⟩ := ih (k + 1) _ c hc
        refine ⟨j + 1, job, s1, by simpa using hj, ?_⟩
        have : k + (j + 1) = k + 1 + j := by omega
        rw [this]; exact hin

theorem checkJob_calls (h : Handler σ ε) (p : Permission) (k : Nat) (job : Config) (s : σ) :
    ∃ a e, (checkJob h p k job s).calls = [Call.CheckPermission k p a e] := by
  unfold checkJob
  split <;> exact ⟨_, _, rfl⟩

theorem createJob_calls_job (h : Handler σ ε) (p : Permission) (k : Nat) (job : Config)
    (s : σ) : ∀ c ∈ (createJob h p k job s).calls, c.job = some k := by
  obtain ⟨a, e, hck⟩ := checkJob_calls h p k job s
  intro c hc
  unfold createJob at hc
  simp only [hck] at hc
  split at hc
  · simp only [List.mem_singleton] at hc
    subst hc; rfl
  · split at hc
    · simp only [List.singleton_append, List.mem_cons, List.mem_singleton,
        List.not_mem_nil, or_false] at hc
      rcases hc with rfl | rfl <;> rfl
    · simp only [List.singleton_append, List.mem_cons, List.mem_singleton,
        List.not_mem_nil, or_false] at hc
      rcases hc with rfl | rfl | rfl | rfl <;> rfl

theorem createJob_err_of_createJob_failed (h : Handler σ ε) (p : Permission) (k : Nat)
    (job : Config) (s : σ) (i : Nat) (q : Permission) (e : Error)
    (hc : Call.CreateJob i q (some e) ∈ (createJob h p k job s).calls) :
    (createJob h p k job s).err = some e := by
  obtain ⟨a, e1, hck⟩ := checkJob_calls h p k job s
  unfold createJob at hc ⊢
  simp only [hck] at hc ⊢
  split
  · rename_i heq
    simp only [heq] at hc
    simp at hc
  · rename_i heq
    simp only [heq] at hc
    split
    · rename_i heq2
      simp only [heq2] at hc
      simp at hc
    · rename_i heq2
      simp only [heq2] at hc
      simp at hc
      exact hc.2.2.symm

theorem scheduleJobs_shape (h : Handler σ ε) (configs : List Config) (s : σ) :
    (∃ e, (scheduleJobs h configs s).err = some e ∧
      (scheduleJobs h configs s).calls = [Call.Init (some e), Call.Close]) ∨
    (configs = [] ∧ (scheduleJobs h configs s).err = none ∧
      (scheduleJobs h configs s).calls = [Call.Init none, Call.Close]) ∨
    (∃ first rest permission confirmed s2, configs = first :: rest ∧
      (scheduleJobs h configs s).err
        = (forJobs (createJob h permission) 0 configs s2).err ∧
      (scheduleJobs h configs s).calls
        = Call.Init none :: Call.DetectSchedulePermission first.Permission permission
            confirmed :: ((forJobs (createJob h permission) 0 configs s2).calls
              ++ [Call.Close])) := by
  unfold scheduleJobs withHandler
  rcases hinit : h.Init s with ⟨_ | e, s1⟩
  · cases configs with
    | nil => right; left; simp
    | cons first rest =>
      right; right
      rcases hd : h.DetectSchedulePermission first.Permission s1 with ⟨⟨permission, confirmed⟩, s2⟩
      exact ⟨first, rest, permission, confirmed, s2, rfl, by simp [hd], by simp [hd]⟩
  · left; exact ⟨e, rfl, rfl⟩

theorem removeJobs_shape (h : Handler σ ε) (configs : List Config) (s : σ) :
    (∃ e, (removeJobs h configs s).err = some e ∧
      (removeJobs h configs s).calls = [Call.Init (some e), Call.Close]) ∨
    (configs = [] ∧ (removeJobs h configs s).err = none ∧
      (removeJobs h configs s).calls = [Call.Init none, Call.Close]) ∨
    (∃ first rest permission confirmed s2, configs = first :: rest ∧
      (h.Init s).1 = none ∧
      h.DetectSchedulePermission first.Permission (h.Init s).2
        = ((permission, confirmed), s2) ∧
      (removeJobs h configs s).err
        = (forJobs (removeJob h permission) 0 configs s2).err ∧
      (removeJobs h configs s).calls
        = Call.Init none :: Call.DetectSchedulePermission first.Permission permission
            confirmed :: ((forJobs (removeJob h permission) 0 configs s2).calls
              ++ [Call.Close])) := by
  unfold removeJobs withHandler
  rcases hinit : h.Init s with ⟨_ | e, s1⟩
  · cases configs with
    | nil => right; left; simp
    | cons first rest =>
      right; right
      rcases hd : h.DetectSchedulePermission first.Permission s1 with ⟨⟨permission, confirmed⟩, s2⟩
      exact ⟨first, rest, permission, confirmed, s2, rfl, rfl, by simp [hd], by simp [hd],
        by simp [hd]⟩
  · left; exact ⟨e, rfl, rfl⟩

theorem removeCall_calls (h : Handler σ ε) (p : Permission) (k : Nat) (job : Config)
    (s : σ) :
    (removeCall h p k job s).calls = [Call.RemoveJob k p (h.RemoveJob job p s).1] := by
  unfold removeCall
  split
  · rename_i heq; simp [heq]
  · rename_i heq; simp [heq]

theorem removeCall_err (h : Handler σ ε) (p : Permission) (k : Nat) (job : Config)
    (s : σ) :
    (removeCall h p k job s).err
      = if (h.RemoveJob job p s).1 = some Error.ErrScheduledJobNotFound then none
        else (h.RemoveJob job p s).1 := by
  unfold removeCall
  rcases h.RemoveJob job p s with ⟨r, s'⟩
  rcases r with _ | e
  · simp
  · cases e <;> simp

theorem removeJob_calls (h : Handler σ ε) (p : Permission) (k : Nat) (job : Config)
    (s : σ) :
    (job.RemoveOnly = false ∧
      (removeJob h p k job s).calls = [Call.RemoveJob k p (h.RemoveJob job p s).1] ∧
      (removeJob h p k job s).err = (removeCall h p k job s).err) ∨
    (job.RemoveOnly = true ∧ ∃ a e, (removeJob h p k job s).err = some e ∧
      (removeJob h p k job s).calls = [Call.CheckPermission k p a (some e)]) ∨
    (job.RemoveOnly = true ∧ (removeJob h p k job s).err = some Error.ErrPermission ∧
      (removeJob h p k job s).calls = [Call.CheckPermission k p false none]) ∨
    (job.RemoveOnly = true ∧ ∃ s1, (h.CheckPermission job p s).1 = (true, none) ∧
      (removeJob h p k job s).err = (removeCall h p k job s1).err ∧
      (removeJob h p k job s).calls
        = [Call.CheckPermission k p true none,
           Call.RemoveJob k p (h.RemoveJob job p s1).1]) := by
  unfold removeJob
  cases hro : job.RemoveOnly with
  | false => left; simp [removeCall_calls]
  | true =>
    right
    simp only [if_true]
    unfold checkJob
    rcases hcp : h.CheckPermission job p s with ⟨⟨a, _ | e⟩, s1⟩
    · cases a with
      | false => right; left; simp
      | true => right; right; exact ⟨trivial, s1, rfl, by simp, by simp [removeCall_calls]⟩
    · left; exact ⟨trivial, a, e, by simp, by simp⟩

theorem removeJob_calls_job (h : Handler σ ε) (p : Permission) (k : Nat) (job : Config)
    (s : σ) : ∀ c ∈ (removeJob h p k job s).calls, c.job = some k := by
  intro c hc
  rcases removeJob_calls h p k job s with ⟨-, hcalls, -⟩ | ⟨-, a, e, -, hcalls⟩ |
    ⟨-, -, hcalls⟩ | ⟨-, s1, -, -, hcalls⟩ <;>
  · rw [hcalls] at hc
    simp only [List.mem_cons, List.mem_singleton, List.not_mem_nil, or_false] at hc
    rcases hc with rfl | rfl <;> rfl

theorem removeJob_err_of_removeJob_failed (h : Handler σ ε) (p : Permission) (k : Nat)
    (job : Config) (s : σ) (i : Nat) (q : Permission) (e : Error)
    (hc : Call.RemoveJob i q (some e) ∈ (removeJob h p k job s).calls) :
    (removeJob h p k job s).err
      = if e = Error.ErrScheduledJobNotFound then none else some e := by
  rcases removeJob_calls h p k job s with ⟨-, hcalls, herr⟩ | ⟨-, a, e1, -, hcalls⟩ |
    ⟨-, -, hcalls⟩ | ⟨-, s1, -, herr, hcalls⟩
  · rw [hcalls] at hc
    simp only [List.mem_singleton, Call.RemoveJob.injEq] at hc
    rw [herr, removeCall_err, ← hc.2.2]
    simp
  · rw [hcalls] at hc; simp at hc
  · rw [hcalls] at hc; simp at hc
  · rw [hcalls] at hc
    simp only [List.mem_cons, List.mem_singleton, Call.RemoveJob.injEq, List.not_mem_nil,
      or_false, false_or, reduceCtorEq] at hc
    rw [herr, removeCall_err, ← hc.2.2]
    simp

theorem removeJobs_cons (h : Handler σ ε) (first : Config) (rest : List Config) (s : σ)
    (hinit : (h.Init s).1 = none) :
    (removeJobs h (first :: rest) s).err
      = (forJobs (removeJob h (h.DetectSchedulePermission first.Permission (h.Init s).2).1.1)
          0 (first :: rest) (h.DetectSchedulePermission first.Permission (h.Init s).2).2).err ∧
    (removeJobs h (first :: rest) s).calls
      = Call.Init none :: Call.DetectSchedulePermission first.Permission
          (h.DetectSchedulePermission first.Permission (h.Init s).2).1.1
          (h.DetectSchedulePermission first.Permission (h.Init s).2).1.2 ::
          ((forJobs (removeJob h (h.DetectSchedulePermission first.Permission (h.Init s).2).1.1)
            0 (first :: rest)
            (h.DetectSchedulePermission first.Permission (h.Init s).2).2).calls
            ++ [Call.Close]) := by
  unfold removeJobs withHandler
  rcases hi : h.Init s with ⟨r, s1⟩
  rw [hi] at hinit
  simp only at hinit
  subst hinit
  constructor <;> rfl

theorem removeJobs_err_of_init_failed (h : Handler σ ε) (configs : List Config) (s : σ)
    (e : Error) (hinit : (h.Init s).1 = some e) : (removeJobs h configs s).err = some e := by
  unfold removeJobs withHandler
  rcases hi : h.Init s with ⟨r, s1⟩
  rw [hi] at hinit
  simp only at hinit
  subst hinit
  rfl

theorem removeOnly_iff (job : Config) : job.RemoveOnly = true ↔ job.Schedules = [] := by
  unfold Config.RemoveOnly
  exact List.isEmpty_iff

theorem removeJob_checkPermission_removeOnly (h : Handler σ ε) (p : Permission) (k : Nat)
    (job : Config) (s : σ) (i : Nat) (q : Permission) (a : Bool) (e : Option Error)
    (hc : Call.CheckPermission i q a e ∈ (removeJob h p k job s).calls) :
    job.Schedules = [] := by
  rcases removeJob_calls h p k job s with ⟨-, hcalls, -⟩ | ⟨hro, -⟩ | ⟨hro, -⟩ | ⟨hro, -⟩
  · rw [hcalls] at hc; simp at hc
  all_goals exact (removeOnly_iff job).1 hro

theorem forJobs_err_of_mem (step : Nat → Config → σ → Outcome σ) (job : Config)
    (hstep : ∀ k s, (step k job s).err ≠ none) :
    ∀ (configs : List Config) (k : Nat) (s : σ), job ∈ configs →
      (forJobs step k configs s).err ≠ none := by
  intro configs
  induction configs with
  | nil => intro k s hmem; simp at hmem
  | cons a rest ih =>
    intro k s hmem
    cases ha : (step k a s).err with
    | some e => rw [forJobs_cons_some _ _ _ _ _ e ha]; simp
    | none =>
      rw [forJobs_cons_none _ _ _ _ _ ha]
      rcases List.mem_cons.1 hmem with rfl | hin
      · exact absurd ha (hstep k s)
      · exact ih (k + 1) _ hin

theorem statusJob_removeOnly (h : Handler σ ε) (k : Nat) (job : Config) (s : σ)
    (hro : job.Schedules = []) : (statusJob h k job s).err ≠ none := by
  unfold statusJob
  rw [if_pos ((removeOnly_iff job).2 hro)]
  simp

theorem statusJob_calls_job (h : Handler σ ε) (k : Nat) (job : Config) (s : σ) :
    ∀ c ∈ (statusJob h k job s).calls, c.job = some k := by
  intro c hc
  unfold statusJob at hc
  split at hc
  · simp at hc
  · split at hc
    · simp only [List.mem_singleton] at hc
      subst hc; rfl
    · simp only [List.mem_cons, List.mem_singleton, List.not_mem_nil, or_false] at hc
      rcases hc with rfl | rfl <;> rfl

theorem statusJob_ok (h : Handler σ ε) (k : Nat) (job : Config) (s : σ)
    (hne : job.Schedules ≠ [])
    (hok : ∀ c ∈ (statusJob h k job s).calls, c.failed = false) :
    (statusJob h k job s).err = none ∧
    (statusJob h k job s).calls
      = [Call.DisplaySchedules k job.ProfileName job.CommandName job.Schedules none,
         Call.DisplayJobStatus k none] := by
  have hro : ¬ (job.RemoveOnly = true) := fun hb => hne ((removeOnly_iff job).1 hb)
  unfold statusJob at hok ⊢
  rw [if_neg hro] at hok ⊢
  rcases hds : h.DisplaySchedules job.ProfileName job.CommandName job.Schedules s
    with ⟨_ | e, s1⟩
  · simp only [hds] at hok ⊢
    rcases hdj : h.DisplayJobStatus job s1 with ⟨_ | e, s2⟩
    · simp only [hdj] at hok ⊢
      exact ⟨trivial, trivial⟩
    · simp only [hdj] at hok
      have := hok (Call.DisplayJobStatus k (some e)) (by simp)
      simp [Call.failed] at this
  · simp only [hds] at hok
    have := hok (Call.DisplaySchedules k job.ProfileName job.CommandName job.Schedules
      (some e)) (by simp)
    simp [Call.failed] at this

theorem forJobs_status_ok (h : Handler σ ε) :
    ∀ (configs : List Config) (k : Nat) (s : σ), (∀ job ∈ configs, job.Schedules ≠ []) →
      (∀ c ∈ (forJobs (statusJob h) k configs s).calls, c.failed = false) →
      (forJobs (statusJob h) k configs s).err = none ∧
      (forJobs (statusJob h) k configs s).calls = statusCalls k configs := by
  intro configs
  induction configs with
  | nil => intro k s _ _; simp [forJobs, statusCalls]
  | cons a rest ih =>
    intro k s hall hok
    have hhead : ∀ c ∈ (statusJob h k a s).calls, c.failed = false :=
      fun c hc => hok c (forJobs_head_calls _ _ _ _ _ c hc)
    obtain ⟨herr, hcalls⟩ := statusJob_ok h k a s (hall a (List.mem_cons_self _ _)) hhead
    rw [forJobs_cons_none _ _ _ _ _ herr] at hok ⊢
    simp only at hok ⊢
    obtain ⟨herr2, hcalls2⟩ := ih (k + 1) (statusJob h k a s).state
      (fun job hj => hall job (List.mem_cons_of_mem _ hj))
      (fun c hc => hok c (List.mem_append_right _ hc))
    refine ⟨herr2, ?_⟩
    rw [hcalls, hcalls2]
    simp [statusCalls]

theorem statusJobs_init_failed (h : Handler σ ε) (profile : String) (configs : List Config)
    (s : σ) (e : Error) (hinit : (h.Init s).1 = some e) :
    (statusJobs h profile configs s).err = some e ∧
    (statusJobs h profile configs s).calls = [Call.Init (some e), Call.Close] := by
  unfold statusJobs withHandler
  rcases hi : h.Init s with ⟨r, s1⟩
  rw [hi] at hinit
  simp only at hinit
  subst hinit
  exact ⟨rfl, rfl⟩

theorem statusJobs_aborted (h : Handler σ ε) (profile : String) (configs : List Config)
    (s : σ) (e : Error) (hinit : (h.Init s).1 = none)
    (hr : (forJobs (statusJob h) 0 configs (h.Init s).2).err = some e) :
    (statusJobs h profile configs s).err = some e ∧
    (statusJobs h profile configs s).calls
      = Call.Init none :: ((forJobs (statusJob h) 0 configs (h.Init s).2).calls
          ++ [Call.Close]) := by
  unfold statusJobs withHandler
  rcases hi : h.Init s with ⟨r, s1⟩
  rw [hi] at hinit hr
  simp only at hinit hr
  subst hinit
  cases configs with
  | nil => simp [forJobs] at hr
  | cons a rest => simp [hr]

theorem statusJobs_completed (h : Handler σ ε) (profile : String) (configs : List Config)
    (s : σ) (hinit : (h.Init s).1 = none)
    (hr : (forJobs (statusJob h) 0 configs (h.Init s).2).err = none) :
    (statusJobs h profile configs s).err
      = (h.DisplayStatus profile (forJobs (statusJob h) 0 configs (h.Init s).2).state).1 ∧
    (statusJobs h profile configs s).calls
      = Call.Init none :: ((forJobs (statusJob h) 0 configs (h.Init s).2).calls
          ++ [Call.DisplayStatus profile
                (h.DisplayStatus profile
                  (forJobs (statusJob h) 0 configs (h.Init s).2).state).1,
              Call.Close]) := by
  unfold statusJobs withHandler
  rcases hi : h.Init s with ⟨r, s1⟩
  rw [hi] at hinit hr
  simp only at hinit hr
  subst hinit
  cases configs with
  | nil => simp [forJobs]
  | cons a rest => simp [hr]

end Lemmas

/-! ## Theorems about `schedule/permission.go` -/

/-- C1: for every permission other than `PermissionSystem` (any integer value of
the type) and every effective user id, `CheckPermission` returns true. -/
theorem checkPermission_of_ne_system (p : Permission) (euid : Int)
    (hp : p ≠ PermissionSystem) : CheckPermission p euid = true := by
  unfold CheckPermission
  rw [if_neg hp]

/-- Instance of C1 at permission value 7, outside the enumeration, and euid -3. -/
theorem checkPermission_of_ne_system_witness :
    (7 : Permission) ≠ PermissionSystem ∧ CheckPermission 7 (-3) = true :=
  ⟨by decide, checkPermission_of_ne_system 7 (-3) (by decide)⟩

/-- C2: `CheckPermission PermissionSystem euid` is true exactly when `euid` is 0,
for every integer `euid`, negative ones included. -/
theorem checkPermission_system_iff (euid : Int) :
    CheckPermission PermissionSystem euid = true ↔ euid = 0 := by
  unfold CheckPermission
  simp

/-- C3: for every canonical token `t` (a token `Permission.String` can return),
`PermissionFromConfig t` converted back with `String` is `t` again. -/
theorem string_permissionFromConfig_canonical (c : Constants) (t : String)
    (hc : c.Distinct) (ht : t ∈ c.canonical) :
    Permission.String c (PermissionFromConfig c t) = t := by
  obtain ⟨h1, h2, h3, h4, h5, h6, h7, h8, h9, h10⟩ := hc
  simp only [Constants.canonical, List.mem_cons, List.mem_singleton, List.not_mem_nil,
    or_false] at ht
  rcases ht with rfl | rfl | rfl | rfl
  · simp [PermissionFromConfig, Permission.String]
  · simp [PermissionFromConfig, Permission.String, Ne.symm h1, PermissionUserBackground,
      PermissionSystem]
  · simp [PermissionFromConfig, Permission.String, Ne.symm h3, Ne.symm h5,
      PermissionUserLoggedOn, PermissionUserBackground, PermissionSystem]
  · simp [PermissionFromConfig, Permission.String, h7, h8, h9, h10, PermissionAuto,
      PermissionUserLoggedOn, PermissionUserBackground, PermissionSystem]

/-- Instance of C3 at the concrete tokens, for `user_logged_on`. -/
theorem string_permissionFromConfig_canonical_witness :
    constants.Distinct ∧ "user_logged_on" ∈ constants.canonical ∧
      Permission.String constants (PermissionFromConfig constants "user_logged_on")
        = "user_logged_on" :=
  ⟨by decide, by decide,
    string_permissionFromConfig_canonical constants "user_logged_on" (by decide) (by decide)⟩

/-- C4: `PermissionFromConfig` is a total function, and on every string that is
not one of the four recognised tokens it returns `PermissionAuto`. -/
theorem permissionFromConfig_unrecognised (c : Constants) (t : String)
    (ht : t ∉ c.recognised) : PermissionFromConfig c t = PermissionAuto := by
  simp only [Constants.recognised, List.mem_cons, List.mem_singleton, List.not_mem_nil,
    or_false, not_or] at ht
  obtain ⟨h1, h2, h3, h4⟩ := ht
  simp [PermissionFromConfig, h1, h2, h3, h4]

/-- Instances of C4 at the concrete tokens: the empty string, the auto token and the
upper-cased system token all resolve to `PermissionAuto`. -/
theorem permissionFromConfig_unrecognised_witness :
    ("" ∉ constants.recognised ∧ PermissionFromConfig constants "" = PermissionAuto) ∧
    (constants.SchedulePermissionAuto ∉ constants.recognised ∧
      PermissionFromConfig constants constants.SchedulePermissionAuto = PermissionAuto) ∧
    ("SYSTEM" ∉ constants.recognised ∧
      PermissionFromConfig constants "SYSTEM" = PermissionAuto) :=
  ⟨⟨by decide, permissionFromConfig_unrecognised constants "" (by decide)⟩,
   ⟨by decide, permissionFromConfig_unrecognised constants _ (by decide)⟩,
   ⟨by decide, permissionFromConfig_unrecognised constants "SYSTEM" (by decide)⟩⟩

/-- C5: on the four declared values `String` is inverted by `PermissionFromConfig`,
and `PermissionAuto.String()` is the auto token. -/
theorem permissionFromConfig_string_declared (c : Constants) (hc : c.Distinct) :
    PermissionFromConfig c (Permission.String c PermissionAuto) = PermissionAuto ∧
    PermissionFromConfig c (Permission.String c PermissionSystem) = PermissionSystem ∧
    PermissionFromConfig c (Permission.String c PermissionUserBackground)
      = PermissionUserBackground ∧
    PermissionFromConfig c (Permission.String c PermissionUserLoggedOn)
      = PermissionUserLoggedOn ∧
    Permission.String c PermissionAuto = c.SchedulePermissionAuto := by
  obtain ⟨h1, h2, h3, h4, h5, h6, h7, h8, h9, h10⟩ := hc
  refine ⟨?_, ?_, ?_, ?_, ?_⟩
  · simp [PermissionFromConfig, Permission.String, h7, h8, h9, h10, PermissionAuto,
      PermissionUserLoggedOn, PermissionUserBackground, PermissionSystem]
  · simp [PermissionFromConfig, Permission.String]
  · simp [PermissionFromConfig, Permission.String, Ne.symm h1, PermissionUserBackground,
      PermissionSystem]
  · simp [PermissionFromConfig, Permission.String, Ne.symm h3, Ne.symm h5,
      PermissionUserLoggedOn, PermissionUserBackground, PermissionSystem]
  · simp [Permission.String, PermissionAuto, PermissionUserLoggedOn,
      PermissionUserBackground, PermissionSystem]

/-- Instance of C5 at the concrete tokens. -/
theorem permissionFromConfig_string_declared_witness :
    constants.Distinct ∧
    PermissionFromConfig constants (Permission.String constants PermissionUserLoggedOn)
      = PermissionUserLoggedOn ∧
    Permission.String constants PermissionAuto = "auto" :=
  ⟨by decide, (permissionFromConfig_string_declared constants (by decide)).2.2.2.1,
    (permissionFromConfig_string_declared constants (by decide)).2.2.2.2⟩

/-- C6, as stated, fails: `PermissionUserLoggedOn` is not the image of exactly one
token, because the alias `user_logged_in` is mapped to it too and differs from
its `String()`. -/
theorem userLoggedOn_token_not_unique :
    ¬ (∀ t : String, PermissionFromConfig constants t = PermissionUserLoggedOn →
        t = Permission.String constants PermissionUserLoggedOn) := by
  intro h
  exact absurd (h "user_logged_in" (by decide)) (by decide)

/-- C6, amended: `String` maps the three non-Auto permissions to pairwise distinct
tokens, none of them the auto token, and `PermissionFromConfig` maps each token
back to its permission; the tokens mapped to `PermissionSystem` and to
`PermissionUserBackground` are exactly their `String()`, while the tokens mapped
to `PermissionUserLoggedOn` are exactly two: its `String()` and the alias
`SchedulePermissionUserLoggedIn`. -/
theorem nonAuto_token_correspondence (c : Constants) (hc : c.Distinct) :
    (Permission.String c PermissionSystem ≠ Permission.String c PermissionUserBackground ∧
     Permission.String c PermissionSystem ≠ Permission.String c PermissionUserLoggedOn ∧
     Permission.String c PermissionUserBackground
       ≠ Permission.String c PermissionUserLoggedOn) ∧
    (Permission.String c PermissionSystem ≠ c.SchedulePermissionAuto ∧
     Permission.String c PermissionUserBackground ≠ c.SchedulePermissionAuto ∧
     Permission.String c PermissionUserLoggedOn ≠ c.SchedulePermissionAuto) ∧
    (∀ t : String, PermissionFromConfig c t = PermissionSystem ↔
      t = Permission.String c PermissionSystem) ∧
    (∀ t : String, PermissionFromConfig c t = PermissionUserBackground ↔
      t = Permission.String c PermissionUserBackground) ∧
    (∀ t : String, PermissionFromConfig c t = PermissionUserLoggedOn ↔
      (t = Permission.String c PermissionUserLoggedOn ∨
       t = c.SchedulePermissionUserLoggedIn)) ∧
    c.SchedulePermissionUserLoggedIn ≠ Permission.String c PermissionUserLoggedOn := by
  obtain ⟨h1, h2, h3, h4, h5, h6, h7, h8, h9, h10⟩ := hc
  have e1 : Permission.String c PermissionSystem = c.SchedulePermissionSystem := by
    simp [Permission.String]
  have e2 : Permission.String c PermissionUserBackground = c.SchedulePermissionUser := by
    simp [Permission.String, PermissionUserBackground, PermissionSystem]
  have e3 : Permission.String c PermissionUserLoggedOn
      = c.SchedulePermissionUserLoggedOn := by
    simp [Permission.String, PermissionUserLoggedOn, PermissionUserBackground,
      PermissionSystem]
  rw [e1, e2, e3]
  refine ⟨⟨h1, h3, h5⟩, ⟨Ne.symm h7, Ne.symm h8, Ne.symm h10⟩, ?_, ?_, ?_, h6⟩
  · intro t
    unfold PermissionFromConfig
    split_ifs with a b d <;>
      simp_all [PermissionAuto, PermissionUserLoggedOn, PermissionUserBackground,
        PermissionSystem]
  · intro t
    unfold PermissionFromConfig
    split_ifs with a b d <;>
      simp_all [PermissionAuto, PermissionUserLoggedOn, PermissionUserBackground,
        PermissionSystem]
  · intro t
    unfold PermissionFromConfig
    split_ifs with a b d <;>
      simp_all [PermissionAuto, PermissionUserLoggedOn, PermissionUserBackground,
        PermissionSystem]
    exact d.symm

/-- Instance of the amended C6 at the concrete tokens. -/
theorem nonAuto_token_correspondence_witness :
    constants.Distinct ∧
    (∀ t : String, PermissionFromConfig constants t = PermissionUserLoggedOn ↔
      (t = Permission.String constants PermissionUserLoggedOn ∨
       t = constants.SchedulePermissionUserLoggedIn)) :=
  ⟨by decide, (nonAuto_token_correspondence constants (by decide)).2.2.2.2.1⟩


/-! ## Theorems about the orchestrator -/

/-- C7: Install is fail-fast with guaranteed teardown. For every handler, state and
batch: if the run called `CreateJob` for the job at position `i` and that call
returned an error, then `scheduleJobs` returns an error (that one), no handler
call was made for a job at a later position, and `Close` was called exactly
once, as the last call. -/
theorem scheduleJobs_createJob_fail_fast {σ ε : Type} (h : Handler σ ε)
    (configs : List Config) (s : σ) (i : Nat) (p : Permission) (e : Error)
    (hfail : Call.CreateJob i p (some e) ∈ (scheduleJobs h configs s).calls) :
    (scheduleJobs h configs s).err = some e ∧
    (∀ c ∈ (scheduleJobs h configs s).calls, ∀ j, c.job = some j → j ≤ i) ∧
    (scheduleJobs h configs s).calls.countP Call.isClose = 1 ∧
    (scheduleJobs h configs s).calls.getLast? = some Call.Close := by
  rcases scheduleJobs_shape h configs s with ⟨e1, -, hcalls⟩ | ⟨-, -, hcalls⟩ |
    ⟨first, rest, permission, confirmed, s2, -, herr, hcalls⟩
  · rw [hcalls] at hfail
    simp at hfail
  · rw [hcalls] at hfail
    simp at hfail
  · rw [hcalls] at hfail ⊢
    rw [herr]
    have hin : Call.CreateJob i p (some e)
        ∈ (forJobs (createJob h permission) 0 configs s2).calls := by
      simpa using hfail
    have hT := createJob_calls_job h permission
    obtain ⟨hE, hle⟩ := forJobs_abort (createJob h permission) (Call.CreateJob i p (some e)) e
      hT (fun k job s hc => createJob_err_of_createJob_failed h permission k job s i p e hc)
      configs 0 s2 hin
    have hnc : ∀ c ∈ (forJobs (createJob h permission) 0 configs s2).calls,
        c.isClose = false := by
      intro c hc
      obtain ⟨j, hj, -, -⟩ := forJobs_calls_job _ hT configs 0 s2 c hc
      cases hb : c.isClose with
      | false => rfl
      | true => rw [job_none_of_isClose c hb] at hj; cases hj
    refine ⟨hE, ?_, ?_, ?_⟩
    · intro c hc j hj
      simp only [List.mem_cons, List.mem_append, List.mem_singleton, List.not_mem_nil,
        or_false] at hc
      rcases hc with rfl | rfl | hc | rfl
      · simp [Call.job] at hj
      · simp [Call.job] at hj
      · exact hle c hc j i hj rfl
      · simp [Call.job] at hj
    · have h0 : List.countP Call.isClose
          (forJobs (createJob h permission) 0 configs s2).calls = 0 := by
        rw [List.countP_eq_zero]
        intro c hc
        simp [hnc c hc]
      simp [List.countP_cons, List.countP_append, h0, Call.isClose]
    · exact getLast?_cons_cons_concat _ _ _ _

/-- Instance of C7: the scenario of `TestFailScheduleJob`, with a second job that is
never attempted. -/
theorem scheduleJobs_createJob_fail_fast_witness :
    Call.CreateJob 0 PermissionUserBackground (some (Error.other "error creating job"))
      ∈ (scheduleJobs (mockHandler (some (Error.other "error creating job")) none)
          [configForJob "backup" ["sched"], configForJob "check" ["sched"]] 0).calls ∧
    (scheduleJobs (mockHandler (some (Error.other "error creating job")) none)
      [configForJob "backup" ["sched"], configForJob "check" ["sched"]] 0).err
        = some (Error.other "error creating job") :=
  ⟨by decide,
   (scheduleJobs_createJob_fail_fast (mockHandler (some (Error.other "error creating job")) none)
      [configForJob "backup" ["sched"], configForJob "check" ["sched"]] 0 0
      PermissionUserBackground (Error.other "error creating job") (by decide)).1⟩

/-- C8: Remove suppresses exactly the not-found condition. For every handler,
state and single-job batch, with or without recurrence strings: if the run
called `RemoveJob` and it returned the error `e`, then `removeJobs` returns no
error when `e` is `ErrScheduledJobNotFound`, and returns an error (`e`) when
`e` is any other error. -/
theorem removeJobs_single_notFound {σ ε : Type} (h : Handler σ ε) (job : Config) (s : σ)
    (k : Nat) (p : Permission) (e : Error)
    (hcall : Call.RemoveJob k p (some e) ∈ (removeJobs h [job] s).calls) :
    (e = Error.ErrScheduledJobNotFound → (removeJobs h [job] s).err = none) ∧
    (e ≠ Error.ErrScheduledJobNotFound → (removeJobs h [job] s).err = some e) := by
  rcases removeJobs_shape h [job] s with ⟨e1, -, hcalls⟩ | ⟨hnil, -, -⟩ |
    ⟨first, rest, permission, confirmed, s2, -, -, -, herr, hcalls⟩
  · rw [hcalls] at hcall
    simp at hcall
  · simp at hnil
  · rw [hcalls] at hcall
    rw [herr]
    obtain ⟨hF, hG⟩ := forJobs_single (removeJob h permission) 0 job s2
    rw [hG] at hcall
    have hin : Call.RemoveJob k p (some e) ∈ (removeJob h permission 0 job s2).calls := by
      simpa using hcall
    have hE := removeJob_err_of_removeJob_failed h permission 0 job s2 k p e hin
    rw [hF, hE]
    constructor
    · intro he; simp [he]
    · intro he; simp [he]

/-- Instances of C8: `TestNoFailRemoveUnknownRemoveOnlyJob` and `TestFailRemoveJob`. -/
theorem removeJobs_single_notFound_witness :
    (Call.RemoveJob 0 PermissionUserBackground (some Error.ErrScheduledJobNotFound)
      ∈ (removeJobs (mockHandler none (some Error.ErrScheduledJobNotFound))
          [configForJob "backup" []] 0).calls ∧
     (removeJobs (mockHandler none (some Error.ErrScheduledJobNotFound))
          [configForJob "backup" []] 0).err = none) ∧
    (Call.RemoveJob 0 PermissionUserBackground (some (Error.other "error removing job"))
      ∈ (removeJobs (mockHandler none (some (Error.other "error removing job")))
          [configForJob "backup" ["sched"]] 0).calls ∧
     (removeJobs (mockHandler none (some (Error.other "error removing job")))
          [configForJob "backup" ["sched"]] 0).err
        = some (Error.other "error removing job")) :=
  ⟨⟨by decide,
    (removeJobs_single_notFound (mockHandler none (some Error.ErrScheduledJobNotFound))
      (configForJob "backup" []) 0 0 PermissionUserBackground
      Error.ErrScheduledJobNotFound (by decide)).1 rfl⟩,
   ⟨by decide,
    (removeJobs_single_notFound (mockHandler none (some (Error.other "error removing job")))
      (configForJob "backup" ["sched"]) 0 0 PermissionUserBackground
      (Error.other "error removing job") (by decide)).2 (by decide)⟩⟩

/-- C9, as stated, fails. Remove is fail-fast: in `mixedBatch`, when `RemoveJob`
fails for the first job, the batch stops there, so the removal-only job at
position 1 gets no `CheckPermission` call and the job with a recurrence string
at position 2 gets no `RemoveJob` call. -/
theorem removeJobs_unreached_jobs_get_no_call :
    (removeJobs (mockHandler none (some (Error.other "error removing job"))) mixedBatch
      0).calls
      = [Call.Init none,
         Call.DetectSchedulePermission PermissionAuto PermissionUserBackground true,
         Call.RemoveJob 0 PermissionUserBackground (some (Error.other "error removing job")),
         Call.Close] ∧
    (mixedBatch[1]? = some (configForJob "check" []) ∧
      (configForJob "check" []).Schedules = [] ∧
      ¬ ∃ p a e, Call.CheckPermission 1 p a e
        ∈ (removeJobs (mockHandler none (some (Error.other "error removing job")))
            mixedBatch 0).calls) ∧
    (mixedBatch[2]? = some (configForJob "forget" ["daily"]) ∧
      (configForJob "forget" ["daily"]).Schedules ≠ [] ∧
      ¬ ∃ p e, Call.RemoveJob 2 p e
        ∈ (removeJobs (mockHandler none (some (Error.other "error removing job")))
            mixedBatch 0).calls) := by
  have hcalls : (removeJobs (mockHandler none (some (Error.other "error removing job")))
      mixedBatch 0).calls
      = [Call.Init none,
         Call.DetectSchedulePermission PermissionAuto PermissionUserBackground true,
         Call.RemoveJob 0 PermissionUserBackground (some (Error.other "error removing job")),
         Call.Close] := by decide
  refine ⟨hcalls, ⟨by decide, by decide, ?_⟩, ⟨by decide, by decide, ?_⟩⟩
  · rintro ⟨p, a, e, hc⟩
    rw [hcalls] at hc
    simp at hc
  · rintro ⟨p, e, hc⟩
    rw [hcalls] at hc
    simp at hc

/-- C9, amended: during `removeJobs`, for every job the batch reaches,
`CheckPermission` is invoked exactly when the job is removal-only. For the job
at position `i` of the batch: a `CheckPermission` call for it occurs only if it
has no recurrence strings; and whenever processing reaches it, that is when
`removeJobs` on the jobs before it returns no error, a removal-only job does get
its `CheckPermission` call, while a job with recurrence strings gets `RemoveJob`
with the permission that `DetectSchedulePermission` resolved from the first
job's request. -/
theorem removeJobs_checkPermission_iff_removeOnly {σ ε : Type} (h : Handler σ ε)
    (configs : List Config) (s : σ) (i : Nat) (job : Config)
    (hi : configs[i]? = some job) :
    ((∃ p a e, Call.CheckPermission i p a e ∈ (removeJobs h configs s).calls) →
      job.Schedules = []) ∧
    ((removeJobs h (configs.take i) s).err = none →
      (job.Schedules = [] →
        ∃ p a e, Call.CheckPermission i p a e ∈ (removeJobs h configs s).calls) ∧
      (job.Schedules ≠ [] →
        ∃ first permission confirmed e, configs.head? = some first ∧
          Call.DetectSchedulePermission first.Permission permission confirmed
            ∈ (removeJobs h configs s).calls ∧
          Call.RemoveJob i permission e ∈ (removeJobs h configs s).calls)) := by
  constructor
  · rintro ⟨p, a, e, hc⟩
    rcases removeJobs_shape h configs s with ⟨e1, -, hcalls⟩ | ⟨-, -, hcalls⟩ |
      ⟨first, rest, permission, confirmed, s2, -, -, -, -, hcalls⟩
    · rw [hcalls] at hc; simp at hc
    · rw [hcalls] at hc; simp at hc
    · rw [hcalls] at hc
      have hin : Call.CheckPermission i p a e
          ∈ (forJobs (removeJob h permission) 0 configs s2).calls := by
        simpa using hc
      obtain ⟨j, job1, s1, hj, hin1⟩ := forJobs_calls_origin _ configs 0 s2 _ hin
      have htag := removeJob_calls_job h permission (0 + j) job1 s1 _ hin1
      simp only [Call.job, Option.some.injEq, Nat.zero_add] at htag
      subst htag
      rw [hi] at hj
      cases hj
      exact removeJob_checkPermission_removeOnly h permission _ job s1 _ _ _ _ hin1
  · intro hreach
    cases hinit : (h.Init s).1 with
    | some e0 =>
      rw [removeJobs_err_of_init_failed h _ s e0 hinit] at hreach
      cases hreach
    | none =>
      cases configs with
      | nil => simp at hi
      | cons first rest =>
        obtain ⟨-, hcalls⟩ := removeJobs_cons h first rest s hinit
        generalize hperm : (h.DetectSchedulePermission first.Permission (h.Init s).2).1.1
          = permission at hcalls
        generalize hconf : (h.DetectSchedulePermission first.Permission (h.Init s).2).1.2
          = confirmed at hcalls
        generalize hs2 : (h.DetectSchedulePermission first.Permission (h.Init s).2).2
          = s2 at hcalls
        have hpre : (forJobs (removeJob h permission) 0 ((first :: rest).take i) s2).err
            = none := by
          cases i with
          | zero => simp [forJobs]
          | succ n =>
            rw [List.take_succ_cons] at hreach ⊢
            obtain ⟨herr, -⟩ := removeJobs_cons h first (rest.take n) s hinit
            rw [hperm, hs2] at herr
            rw [← herr]; exact hreach
        have hstep : ∀ c ∈ (removeJob h permission i job
              (forJobs (removeJob h permission) 0 ((first :: rest).take i) s2).state).calls,
            c ∈ (removeJobs h (first :: rest) s).calls := by
          intro c hc
          rw [hcalls]
          refine List.mem_cons_of_mem _ (List.mem_cons_of_mem _ (List.mem_append_left _ ?_))
          refine forJobs_calls_at _ _ i job 0 s2 hi hpre c ?_
          rw [Nat.zero_add]; exact hc
        generalize (forJobs (removeJob h permission) 0 ((first :: rest).take i) s2).state
          = s3 at hstep
        constructor
        · intro hempty
          have hro : job.RemoveOnly = true := (removeOnly_iff job).2 hempty
          rcases removeJob_calls h permission i job s3 with ⟨hf, -⟩ | ⟨-, a, e, -, hc⟩ |
            ⟨-, -, hc⟩ | ⟨-, s4, -, -, hc⟩
          · rw [hro] at hf; cases hf
          · exact ⟨permission, a, some e, hstep _ (by rw [hc]; simp)⟩
          · exact ⟨permission, false, none, hstep _ (by rw [hc]; simp)⟩
          · exact ⟨permission, true, none, hstep _ (by rw [hc]; simp)⟩
        · intro hne
          have hro : job.RemoveOnly = false := by
            cases hb : job.RemoveOnly with
            | false => rfl
            | true => exact absurd ((removeOnly_iff job).1 hb) hne
          refine ⟨first, permission, confirmed, (h.RemoveJob job permission s3).1, rfl, ?_, ?_⟩
          · rw [hcalls]; simp
          · rcases removeJob_calls h permission i job s3 with ⟨-, hc, -⟩ | ⟨ht, -⟩ |
              ⟨ht, -⟩ | ⟨ht, -⟩
            · exact hstep _ (by rw [hc]; simp)
            all_goals rw [hro] at ht; cases ht

/-- Instance of the amended C9 on a batch of a scheduled job followed by a
removal-only job: the second gets a `CheckPermission` call, the first gets none. -/
theorem removeJobs_checkPermission_iff_removeOnly_witness :
    ([configForJob "backup" ["sched"], configForJob "check" []][1]?
        = some (configForJob "check" []) ∧
      (removeJobs (mockHandler none none)
        ([configForJob "backup" ["sched"], configForJob "check" []].take 1) 0).err = none ∧
      ∃ p a e, Call.CheckPermission 1 p a e
        ∈ (removeJobs (mockHandler none none)
            [configForJob "backup" ["sched"], configForJob "check" []] 0).calls) ∧
    ¬ (∃ p a e, Call.CheckPermission 0 p a e
        ∈ (removeJobs (mockHandler none none)
            [configForJob "backup" ["sched"], configForJob "check" []] 0).calls) :=
  ⟨⟨by decide, by decide,
    ((removeJobs_checkPermission_iff_removeOnly (mockHandler none none)
      [configForJob "backup" ["sched"], configForJob "check" []] 0 1
      (configForJob "check" []) (by decide)).2 (by decide)).1 (by decide)⟩,
   fun hc => absurd
    ((removeJobs_checkPermission_iff_removeOnly (mockHandler none none)
      [configForJob "backup" ["sched"], configForJob "check" []] 0 0
      (configForJob "backup" ["sched"]) (by decide)).1 hc) (by decide)⟩

/-- C10: Status on a batch that contains a removal-only job returns an error and
never calls `DisplayStatus`, with `Init` and `Close` each called once; on a
batch whose jobs all carry recurrence strings and whose handler calls all
succeed it returns no error and its calls are exactly `Init`, then for each job
in batch order `DisplaySchedules` and `DisplayJobStatus`, then `DisplayStatus`
once, then `Close`. -/
theorem statusJobs_removeOnly_fails_else_displays {σ ε : Type} (h : Handler σ ε)
    (profile : String) (configs : List Config) (s : σ) :
    ((∃ job ∈ configs, job.Schedules = []) →
      (∃ e, (statusJobs h profile configs s).err = some e) ∧
      (∀ c ∈ (statusJobs h profile configs s).calls, c.isDisplayStatus = false) ∧
      (statusJobs h profile configs s).calls.countP Call.isInit = 1 ∧
      (statusJobs h profile configs s).calls.countP Call.isClose = 1) ∧
    ((∀ job ∈ configs, job.Schedules ≠ []) →
      (∀ c ∈ (statusJobs h profile configs s).calls, c.failed = false) →
      (statusJobs h profile configs s).err = none ∧
      (statusJobs h profile configs s).calls
        = Call.Init none ::
            (statusCalls 0 configs ++ [Call.DisplayStatus profile none, Call.Close])) := by
  constructor
  · rintro ⟨job, hmem, hro⟩
    cases hinit : (h.Init s).1 with
    | some e =>
      obtain ⟨herr, hcalls⟩ := statusJobs_init_failed h profile configs s e hinit
      rw [herr, hcalls]
      refine ⟨⟨e, rfl⟩, ?_, rfl, rfl⟩
      intro c hc
      simp only [List.mem_cons, List.mem_singleton, List.not_mem_nil, or_false] at hc
      rcases hc with rfl | rfl <;> rfl
    | none =>
      have hne := forJobs_err_of_mem (statusJob h) job
        (fun k s => statusJob_removeOnly h k job s hro) configs 0 (h.Init s).2 hmem
      cases hr : (forJobs (statusJob h) 0 configs (h.Init s).2).err with
      | none => exact absurd hr hne
      | some e =>
        obtain ⟨herr, hcalls⟩ := statusJobs_aborted h profile configs s e hinit hr
        rw [herr, hcalls]
        have htag : ∀ c ∈ (forJobs (statusJob h) 0 configs (h.Init s).2).calls,
            ∃ j, c.job = some j := by
          intro c hc
          obtain ⟨j, hj, -, -⟩ := forJobs_calls_job _ (statusJob_calls_job h) configs 0 _ c hc
          exact ⟨j, hj⟩
        have h0 : ∀ (f : Call → Bool), (∀ c, f c = true → c.job = none) →
            List.countP f (forJobs (statusJob h) 0 configs (h.Init s).2).calls = 0 := by
          intro f hf
          rw [List.countP_eq_zero]
          intro c hc hfc
          obtain ⟨j, hj⟩ := htag c hc
          rw [hf c hfc] at hj
          cases hj
        refine ⟨⟨e, rfl⟩, ?_, ?_, ?_⟩
        · intro c hc
          simp only [List.mem_cons, List.mem_append, List.mem_singleton, List.not_mem_nil,
            or_false] at hc
          rcases hc with rfl | hc | rfl
          · rfl
          · obtain ⟨j, hj⟩ := htag c hc
            cases hb : c.isDisplayStatus with
            | false => rfl
            | true => rw [job_none_of_isDisplayStatus c hb] at hj; cases hj
          · rfl
        · have := h0 Call.isInit job_none_of_isInit
          simp [List.countP_cons, List.countP_append, this, Call.isInit]
        · have := h0 Call.isClose job_none_of_isClose
          simp [List.countP_cons, List.countP_append, this, Call.isClose]
  · intro hall hok
    cases hinit : (h.Init s).1 with
    | some e =>
      obtain ⟨-, hcalls⟩ := statusJobs_init_failed h profile configs s e hinit
      have := hok (Call.Init (some e)) (by rw [hcalls]; simp)
      simp [Call.failed] at this
    | none =>
      cases hr : (forJobs (statusJob h) 0 configs (h.Init s).2).err with
      | some e =>
        obtain ⟨-, hcalls⟩ := statusJobs_aborted h profile configs s e hinit hr
        have hok2 : ∀ c ∈ (forJobs (statusJob h) 0 configs (h.Init s).2).calls,
            c.failed = false := by
          intro c hc
          exact hok c (by rw [hcalls]; simp [hc])
        obtain ⟨herr, -⟩ := forJobs_status_ok h configs 0 _ hall hok2
        rw [hr] at herr
        cases herr
      | none =>
        obtain ⟨herr, hcalls⟩ := statusJobs_completed h profile configs s hinit hr
        have hok2 : ∀ c ∈ (forJobs (statusJob h) 0 configs (h.Init s).2).calls,
            c.failed = false := by
          intro c hc
          exact hok c (by rw [hcalls]; simp [hc])
        obtain ⟨-, hsc⟩ := forJobs_status_ok h configs 0 _ hall hok2
        have hds := hok (Call.DisplayStatus profile (h.DisplayStatus profile
          (forJobs (statusJob h) 0 configs (h.Init s).2).state).1) (by rw [hcalls]; simp)
        simp only [Call.failed] at hds
        cases hd : (h.DisplayStatus profile
          (forJobs (statusJob h) 0 configs (h.Init s).2).state).1 with
        | some e => rw [hd] at hds; simp at hds
        | none =>
          rw [herr, hcalls, hd, hsc]
          exact ⟨rfl, rfl⟩

/-- Instances of C10: a batch with a removal-only job, and a batch of two scheduled
jobs with a handler whose calls all succeed. -/
theorem statusJobs_removeOnly_fails_else_displays_witness :
    ((∃ job ∈ [configForJob "backup" ["sched"], configForJob "check" []],
        job.Schedules = []) ∧
      ∃ e, (statusJobs (mockHandler none none) "profile"
        [configForJob "backup" ["sched"], configForJob "check" []] 0).err = some e) ∧
    ((∀ job ∈ [configForJob "backup" ["sched"], configForJob "check" ["daily"]],
        job.Schedules ≠ []) ∧
      (∀ c ∈ (statusJobs (mockHandler none none) "profile"
        [configForJob "backup" ["sched"], configForJob "check" ["daily"]] 0).calls,
        c.failed = false) ∧
      (statusJobs (mockHandler none none) "profile"
        [configForJob "backup" ["sched"], configForJob "check" ["daily"]] 0).calls
        = [Call.Init none,
           Call.DisplaySchedules 0 "profile" "backup" ["sched"] none,
           Call.DisplayJobStatus 0 none,
           Call.DisplaySchedules 1 "profile" "check" ["daily"] none,
           Call.DisplayJobStatus 1 none,
           Call.DisplayStatus "profile" none,
           Call.Close]) :=
  ⟨⟨by decide,
    ((statusJobs_removeOnly_fails_else_displays (mockHandler none none) "profile"
      [configForJob "backup" ["sched"], configForJob "check" []] 0).1 (by decide)).1⟩,
   ⟨by decide, by decide,
    ((statusJobs_removeOnly_fails_else_displays (mockHandler none none) "profile"
      [configForJob "backup" ["sched"], configForJob "check" ["daily"]] 0).2
        (by decide) (by decide)).2⟩⟩

/-! ## Lemmas about `envscanner/scanner.go` -/

namespace Envscanner

theorem matchHere_some (s name : List Char) (h : matchHere s = some name) :
    ∃ c rest post, name = c :: rest ∧ isNameStart c = true ∧
      (∀ x ∈ rest, isNameChar x = true) ∧ s = ".Env.".data ++ name ++ post ∧
      ∀ x, post.head? = some x → isNameChar x = false := by
  unfold matchHere at h
  split at h
  · rename_i c rest
    split at h
    · rename_i hc
      simp only [Option.some.injEq] at h
      refine ⟨c, rest.takeWhile isNameChar, rest.dropWhile isNameChar, h.symm, hc, ?_, ?_, ?_⟩
      · intro x hx
        exact (List.mem_takeWhile_imp hx)
      · rw [← h]
        simp [List.takeWhile_append_dropWhile]
      · intro x hx
        cases hd : rest.dropWhile isNameChar with
        | nil => rw [hd] at hx; simp at hx
        | cons y ys =>
          rw [hd] at hx
          simp only [List.head?_cons, Option.some.injEq] at hx
          subst hx
          have := List.head_dropWhile_not isNameChar rest (by rw [hd]; simp)
          simpa [hd] using this
    · cases h
  · cases h

theorem findAllNames_mem (name : List Char) :
    ∀ (s : List Char) (skip : Nat), name ∈ findAllNames skip s →
      ∃ pre post c rest, s = pre ++ ".Env.".data ++ name ++ post ∧ name = c :: rest ∧
        isNameStart c = true ∧ (∀ x ∈ rest, isNameChar x = true) ∧
        ∀ x, post.head? = some x → isNameChar x = false := by
  intro s
  induction s with
  | nil => intro skip h; simp [findAllNames] at h
  | cons a cs ih =>
    intro skip h
    have htail : ∀ k, name ∈ findAllNames k cs →
        ∃ pre post c rest, a :: cs = pre ++ ".Env.".data ++ name ++ post ∧ name = c :: rest ∧
          isNameStart c = true ∧ (∀ x ∈ rest, isNameChar x = true) ∧
          ∀ x, post.head? = some x → isNameChar x = false := by
      intro k hk
      obtain ⟨pre, post, c, rest, hs, hn, hc, hr, hp⟩ := ih k hk
      exact ⟨a :: pre, post, c, rest, by rw [hs]; simp, hn, hc, hr, hp⟩
    cases skip with
    | succ k =>
      rw [findAllNames] at h
      exact htail k h
    | zero =>
      rw [findAllNames] at h
      cases hm : matchHere (a :: cs) with
      | none =>
        rw [hm] at h
        exact htail 0 h
      | some found =>
        rw [hm] at h
        simp only [List.mem_cons] at h
        rcases h with rfl | h
        · obtain ⟨c, rest, post, hn, hc, hr, hs, hp⟩ := matchHere_some _ _ hm
          exact ⟨[], post, c, rest, by rw [hs]; simp, hn, hc, hr, hp⟩
        · exact htail _ h

theorem findAllStringSubmatch_mem (value : String) (mt : List String)
    (h : mt ∈ FindAllStringSubmatch value) :
    mt.length > 1 ∧ ∃ name, name ∈ findAllNames 0 value.data ∧ mt.getD 1 "" = String.mk name := by
  unfold FindAllStringSubmatch at h
  simp only [List.mem_map] at h
  obtain ⟨name, hname, rfl⟩ := h
  exact ⟨by simp, name, hname, by simp⟩

theorem mem_mapInsert (found : List String) (key k : String) :
    k ∈ mapInsert found key ↔ k ∈ found ∨ k = key := by
  unfold mapInsert
  split
  · rename_i hin
    constructor
    · exact Or.inl
    · rintro (h | rfl)
      · exact h
      · exact hin
  · simp

theorem nodup_mapInsert (found : List String) (key : String) (h : found.Nodup) :
    (mapInsert found key).Nodup := by
  unfold mapInsert
  split
  · exact h
  · rename_i hin
    rw [List.nodup_append]
    refine ⟨h, List.nodup_singleton _, ?_⟩
    intro a ha hb
    simp only [List.mem_singleton] at hb
    subst hb
    exact hin ha

theorem mem_foldl_addMatch (k : String) :
    ∀ (ms : List (List String)) (found : List String), (∀ m ∈ ms, m.length > 1) →
      (k ∈ ms.foldl addMatch found ↔ k ∈ found ∨ ∃ m ∈ ms, m.getD 1 "" = k) := by
  intro ms
  induction ms with
  | nil => intro found _; simp
  | cons m rest ih =>
    intro found hlen
    have hm : m.length > 1 := hlen m (List.mem_cons_self _ _)
    rw [List.foldl_cons, ih _ (fun x hx => hlen x (List.mem_cons_of_mem _ hx))]
    unfold addMatch
    rw [if_pos hm, mem_mapInsert]
    simp only [List.mem_cons, exists_eq_or_imp]
    constructor
    · rintro ((h | h) | h)
      · exact Or.inl h
      · exact Or.inr (Or.inl h.symm)
      · exact Or.inr (Or.inr h)
    · rintro (h | h | h)
      · exact Or.inl (Or.inl h)
      · exact Or.inl (Or.inr h.symm)
      · exact Or.inr h

theorem nodup_foldl_addMatch :
    ∀ (ms : List (List String)) (found : List String), found.Nodup →
      (ms.foldl addMatch found).Nodup := by
  intro ms
  induction ms with
  | nil => intro found h; simpa using h
  | cons m rest ih =>
    intro found h
    rw [List.foldl_cons]
    apply ih
    unfold addMatch
    split
    · exact nodup_mapInsert _ _ h
    · exact h

mutual
theorem mem_scanNode (k : String) :
    ∀ (n : Node) (found : List String),
      k ∈ scanNode n found ↔ k ∈ found ∨ ∃ m ∈ n.subtree, Captures m k
  | .mk kind tag value content, found => by
    rw [scanNode, mem_scanNodes k content, Node.subtree]
    simp only [List.mem_cons, exists_eq_or_imp]
    by_cases hs : kind = ScalarNode ∧ tag = "!!str"
    · rw [if_pos hs, mem_foldl_addMatch k _ _
        (fun m hm => (findAllStringSubmatch_mem value m hm).1)]
      have hcap : Captures (Node.mk kind tag value content) k ↔
          ∃ mt ∈ FindAllStringSubmatch value, mt.getD 1 "" = k := by
        constructor
        · rintro ⟨-, -, h⟩
          exact h
        · intro h
          exact ⟨hs.1, hs.2, h⟩
      rw [hcap]
      exact or_assoc
    · rw [if_neg hs]
      have : ¬ Captures (Node.mk kind tag value content) k := by
        rintro ⟨h1, h2, -⟩
        exact hs ⟨h1, h2⟩
      rw [or_iff_right this]
theorem mem_scanNodes (k : String) :
    ∀ (l : List Node) (found : List String),
      k ∈ scanNodes l found ↔ k ∈ found ∨ ∃ m ∈ subtrees l, Captures m k
  | [], found => by simp [scanNodes, subtrees]
  | child :: rest, found => by
    rw [scanNodes, mem_scanNodes k rest, mem_scanNode k child, subtrees]
    simp only [List.mem_append]
    constructor
    · rintro ((h | ⟨m, hm, hc⟩) | ⟨m, hm, hc⟩)
      · exact Or.inl h
      · exact Or.inr ⟨m, Or.inl hm, hc⟩
      · exact Or.inr ⟨m, Or.inr hm, hc⟩
    · rintro (h | ⟨m, hm | hm, hc⟩)
      · exact Or.inl (Or.inl h)
      · exact Or.inl (Or.inr ⟨m, hm, hc⟩)
      · exact Or.inr ⟨m, hm, hc⟩
end

mutual
theorem nodup_scanNode :
    ∀ (n : Node) (found : List String), found.Nodup → (scanNode n found).Nodup
  | .mk kind tag value content, found, h => by
    rw [scanNode]
    apply nodup_scanNodes content
    split
    · exact nodup_foldl_addMatch _ _ h
    · exact h
theorem nodup_scanNodes :
    ∀ (l : List Node) (found : List String), found.Nodup → (scanNodes l found).Nodup
  | [], found, h => by rw [scanNodes]; exact h
  | child :: rest, found, h => by
    rw [scanNodes]
    exact nodup_scanNodes rest _ (nodup_scanNode child _ h)
end

theorem data_le_iff (a b : String) : a.data ≤ b.data ↔ a ≤ b :=
  String.le_iff_toList_le.symm

theorem dataLeTotal : IsTotal String (fun a b => a.data ≤ b.data) :=
  ⟨fun a b => by rw [data_le_iff, data_le_iff]; exact le_total a b⟩

theorem dataLeTrans : IsTrans String (fun a b => a.data ≤ b.data) :=
  ⟨fun a b c hab hbc => by
    rw [data_le_iff] at hab hbc ⊢
    exact le_trans hab hbc⟩

theorem dataLeAntisymm : IsAntisymm String (fun a b => a.data ≤ b.data) :=
  ⟨fun a b hab hba => by
    rw [data_le_iff] at hab hba
    exact le_antisymm hab hba⟩

theorem slicesSort_perm (l : List String) : (slicesSort l).Perm l :=
  List.perm_insertionSort _ l

theorem slicesSort_sorted_le (l : List String) :
    List.Sorted (fun a b : String => a ≤ b) (slicesSort l) := by
  have h : List.Sorted (fun a b : String => a.data ≤ b.data) (slicesSort l) :=
    @List.sorted_insertionSort _ _ _ dataLeTotal dataLeTrans l
  exact List.Pairwise.imp (fun hab => (data_le_iff _ _).1 hab) h

theorem slicesSort_sorted_lt (l : List String) (hl : l.Nodup) :
    List.Sorted (fun a b : String => a < b) (slicesSort l) :=
  (slicesSort_sorted_le l).lt_of_le ((slicesSort_perm l).nodup_iff.2 hl)

theorem slicesSort_eq_of_perm (l l' : List String) (h : l.Perm l') :
    slicesSort l' = slicesSort l := by
  have h1 : List.Sorted (fun a b : String => a.data ≤ b.data) (slicesSort l) :=
    @List.sorted_insertionSort _ _ _ dataLeTotal dataLeTrans l
  have h2 : List.Sorted (fun a b : String => a.data ≤ b.data) (slicesSort l') :=
    @List.sorted_insertionSort _ _ _ dataLeTotal dataLeTrans l'
  exact @List.eq_of_perm_of_sorted _ _ dataLeAntisymm _ _
    (((slicesSort_perm l').trans h.symm).trans (slicesSort_perm l).symm) h2 h1

theorem mem_slicesSort (l : List String) (k : String) : k ∈ slicesSort l ↔ k ∈ l :=
  (slicesSort_perm l).mem_iff

theorem mem_subtree_self (n : Node) : n ∈ n.subtree := by
  cases n with
  | mk kind tag value content => rw [Node.subtree]; exact List.mem_cons_self _ _

theorem subtree_subset_subtrees (child : Node) :
    ∀ (l : List Node), child ∈ l → ∀ m ∈ child.subtree, m ∈ subtrees l := by
  intro l
  induction l with
  | nil => intro h; simp at h
  | cons a rest ih =>
    intro h m hm
    rw [subtrees, List.mem_append]
    rcases List.mem_cons.1 h with rfl | hin
    · exact Or.inl hm
    · exact Or.inr (ih hin m hm)

theorem subtree_child_subset (n child : Node) (h : child ∈ n.Content) :
    ∀ m ∈ child.subtree, m ∈ n.subtree := by
  cases n with
  | mk kind tag value content =>
    intro m hm
    rw [Node.subtree]
    exact List.mem_cons_of_mem _ (subtree_subset_subtrees child content h m hm)

theorem wellFormed_child (n child : Node) (hn : n.WellFormed) (h : child ∈ n.Content) :
    child.WellFormed :=
  fun m hm => hn m (subtree_child_subset n child h m hm)

theorem wellFormed_even (n : Node) (hn : n.WellFormed) (hk : n.Kind = MappingNode) :
    n.Content.length % 2 = 0 :=
  hn n (mem_subtree_self n) hk

theorem keyValuePairs_mem :
    ∀ (content : List Node) (kv : Node × Node), kv ∈ keyValuePairs content →
      kv.1 ∈ content ∧ kv.2 ∈ content
  | [], kv, h => by simp [keyValuePairs] at h
  | [_], kv, h => by simp [keyValuePairs] at h
  | key :: value :: rest, kv, h => by
    rw [keyValuePairs, List.mem_cons] at h
    rcases h with rfl | h
    · simp
    · obtain ⟨h1, h2⟩ := keyValuePairs_mem rest kv h
      exact ⟨List.mem_cons_of_mem _ (List.mem_cons_of_mem _ h1),
        List.mem_cons_of_mem _ (List.mem_cons_of_mem _ h2)⟩

theorem findNested_eq :
    ∀ (content : List Node) (nestedKey : String), content.length % 2 = 0 →
      findNested content nestedKey
        = .ok (((keyValuePairs content).find? (fun kv => kv.1.Value = nestedKey)).map
            Prod.snd)
  | [], _, _ => by simp [findNested, keyValuePairs]
  | [_], _, h => by simp at h
  | key :: value :: rest, nestedKey, h => by
    have hrest : rest.length % 2 = 0 := by
      simp only [List.length_cons] at h
      omega
    rw [findNested, keyValuePairs, List.find?_cons]
    by_cases hk : key.Value = nestedKey
    · simp [hk]
    · simp only [hk, if_false, decide_False]
      exact findNested_eq rest nestedKey hrest

theorem findTop_eq :
    ∀ (content : List Node) (topLevelKey nestedKey : String), content.length % 2 = 0 →
      (∀ child ∈ content, child.Kind = MappingNode → child.Content.length % 2 = 0) →
      findTop content topLevelKey nestedKey
        = .ok (((keyValuePairs content).find? (fun kv => kv.1.Value = topLevelKey)).bind
            (fun kv =>
              if kv.2.Kind = MappingNode then
                ((keyValuePairs kv.2.Content).find?
                  (fun kv2 => kv2.1.Value = nestedKey)).map Prod.snd
              else none))
  | [], _, _, _, _ => by simp [findTop, keyValuePairs]
  | [_], _, _, h, _ => by simp at h
  | key :: value :: rest, topLevelKey, nestedKey, h, hc => by
    have hrest : rest.length % 2 = 0 := by
      simp only [List.length_cons] at h
      omega
    rw [findTop, keyValuePairs, List.find?_cons]
    by_cases hk : key.Value = topLevelKey
    · simp only [hk, if_true, decide_True, Option.some_bind]
      by_cases hm : value.Kind = MappingNode
      · rw [if_pos hm, if_pos hm]
        exact findNested_eq _ _ (hc value (by simp) hm)
      · rw [if_neg hm, if_neg hm]
    · simp only [hk, if_false, decide_False]
      exact findTop_eq rest topLevelKey nestedKey hrest
        (fun child hin => hc child (List.mem_cons_of_mem _ (List.mem_cons_of_mem _ hin)))

theorem findNodeByKey_eq_spec (root : Node) (topLevelKey nestedKey : String)
    (hwf : root.WellFormed) :
    findNodeByKey root topLevelKey nestedKey
      = .ok (findNodeByKeySpec root topLevelKey nestedKey) := by
  unfold findNodeByKey findNodeByKeySpec
  by_cases hk : root.Kind = MappingNode
  · rw [if_neg (not_not.2 hk), if_pos hk]
    exact findTop_eq _ _ _ (wellFormed_even root hwf hk)
      (fun child hin hm => wellFormed_even child (wellFormed_child root child hwf hin) hm)
  · rw [if_pos hk, if_neg hk]

theorem findNodeByKeySpec_some (root : Node) (topLevelKey nestedKey : String) (v : Node)
    (h : findNodeByKeySpec root topLevelKey nestedKey = some v) :
    IsKeyOfSection root topLevelKey nestedKey := by
  unfold findNodeByKeySpec at h
  split at h
  · rename_i hk
    rw [Option.bind_eq_some] at h
    obtain ⟨kv, hfind, hv⟩ := h
    split at hv
    · rename_i hm
      rw [Option.map_eq_some'] at hv
      obtain ⟨kv2, hfind2, -⟩ := hv
      refine ⟨hk, kv, List.mem_of_find?_eq_some hfind, ?_, hm, kv2,
        List.mem_of_find?_eq_some hfind2, ?_⟩
      · simpa using List.find?_some hfind
      · simpa using List.find?_some hfind2
    · cases hv
  · cases h

theorem scan_of_root {δ : Type} (host : Host δ) (configFile name : String) (data : δ)
    (root : Node) (hr : host.ReadFile configFile = .ok data)
    (hu : host.Unmarshal data = .ok root) :
    ScanForEnvVariables host configFile name
      = match root.Content with
        | [] => .ok ([], none)
        | mainNode :: _ =>
          match targetNode mainNode name with
          | .panic p => .panic p
          | .ok none => .ok ([], none)
          | .ok (some target) => .ok (slicesSort (scanNode target []), none) := by
  unfold ScanForEnvVariables
  simp only [hr, hu]

theorem scan_ok_cases {δ : Type} (host : Host δ) (configFile name : String)
    (result : List String) (err : Option GoError)
    (h : ScanForEnvVariables host configFile name = .ok (result, err)) :
    result = [] ∨
    ∃ data root mainNode rest target, host.ReadFile configFile = .ok data ∧
      host.Unmarshal data = .ok root ∧ root.Content = mainNode :: rest ∧
      targetNode mainNode name = .ok (some target) ∧
      result = slicesSort (scanNode target []) ∧ err = none := by
  unfold ScanForEnvVariables at h
  rcases hr : host.ReadFile configFile with e | data
  · simp only [hr, Result.ok.injEq, Prod.mk.injEq] at h
    exact Or.inl h.1.symm
  · simp only [hr] at h
    rcases hu : host.Unmarshal data with e | root
    · simp only [hu, Result.ok.injEq, Prod.mk.injEq] at h
      exact Or.inl h.1.symm
    · simp only [hu] at h
      rcases hc : root.Content with _ | ⟨mainNode, rest⟩
      · simp only [hc, Result.ok.injEq, Prod.mk.injEq] at h
        exact Or.inl h.1.symm
      · simp only [hc] at h
        rcases ht : targetNode mainNode name with t | p
        · rcases t with _ | target
          · simp only [ht, Result.ok.injEq, Prod.mk.injEq] at h
            exact Or.inl h.1.symm
          · simp only [ht, Result.ok.injEq, Prod.mk.injEq] at h
            exact Or.inr ⟨data, root, mainNode, rest, target, rfl, hu, hc, ht, h.1.symm,
              h.2.symm⟩
        · simp only [ht] at h
          cases h

theorem isNameChar_of_isNameStart (c : Char) (h : isNameStart c = true) :
    isNameChar c = true := by
  unfold isNameChar
  rw [h]
  rfl

theorem captures_occurs (m : Node) (name : String) (h : Captures m name) :
    m.Kind = ScalarNode ∧ IsIdentifier name ∧ TextOccurs name m.Value ∧
      OccursMaximally name m.Value := by
  obtain ⟨hk, -, mt, hmt, hget⟩ := h
  obtain ⟨-, chars, hchars, hd⟩ := findAllStringSubmatch_mem m.Value mt hmt
  obtain ⟨pre, post, c, rest, hs, hn, hc, hr, hp⟩ := findAllNames_mem chars _ 0 hchars
  have hname : name = String.mk chars := by rw [← hget, hd]
  have hid : IsIdentifier name := by
    refine ⟨⟨c, rest, by rw [hname, hn], hc⟩, ?_⟩
    intro x hx
    rw [hname, hn] at hx
    rcases List.mem_cons.1 hx with rfl | hx
    · exact isNameChar_of_isNameStart _ hc
    · exact hr x hx
  refine ⟨hk, hid, ⟨hid, pre, post, ?_⟩, pre, post, ?_, hp⟩
  · rw [hs, hname, String.data_append]
    simp [List.append_assoc]
  · rw [hs, hname]

theorem findNodeByKeySpec_eq_none_iff (root : Node) (topLevelKey nestedKey : String) :
    findNodeByKeySpec root topLevelKey nestedKey = none ↔
      (root.Kind ≠ MappingNode ∨
       (∀ kv ∈ keyValuePairs root.Content, kv.1.Value ≠ topLevelKey) ∨
       ∃ kv, (keyValuePairs root.Content).find? (fun kv => kv.1.Value = topLevelKey)
           = some kv ∧
         (kv.2.Kind ≠ MappingNode ∨
          ∀ kv2 ∈ keyValuePairs kv.2.Content, kv2.1.Value ≠ nestedKey)) := by
  unfold findNodeByKeySpec
  by_cases hk : root.Kind = MappingNode
  · rw [if_pos hk]
    cases hf : (keyValuePairs root.Content).find? (fun kv => kv.1.Value = topLevelKey) with
    | none =>
      simp only [Option.none_bind, true_iff]
      right; left
      intro kv hkv
      have := List.find?_eq_none.1 hf kv hkv
      simpa using this
    | some kv =>
      have hkey : kv.1.Value = topLevelKey := by simpa using List.find?_some hf
      have hmem : kv ∈ keyValuePairs root.Content := List.mem_of_find?_eq_some hf
      simp only [Option.some_bind]
      by_cases hm : kv.2.Kind = MappingNode
      · rw [if_pos hm]
        constructor
        · intro hnone
          right; right
          refine ⟨kv, rfl, Or.inr ?_⟩
          intro kv2 hkv2
          rw [Option.map_eq_none'] at hnone
          have := List.find?_eq_none.1 hnone kv2 hkv2
          simpa using this
        · rintro (h | h | ⟨kv', hkv', h⟩)
          · exact absurd hk h
          · exact absurd hkey (h kv hmem)
          · simp only [Option.some.injEq] at hkv'
            subst hkv'
            rcases h with h | h
            · exact absurd hm h
            · rw [Option.map_eq_none', List.find?_eq_none]
              intro kv2 hkv2
              simpa using h kv2 hkv2
      · rw [if_neg hm]
        simp only [true_iff]
        right; right
        exact ⟨kv, rfl, Or.inl hm⟩
  · rw [if_neg hk]
    simp only [true_iff]
    exact Or.inl hk

end Envscanner

/-! ## Theorems about `envscanner/scanner.go` -/

namespace Envscanner

/-- C11: whenever `ScanForEnvVariables` succeeds, the returned list is in strictly
ascending string order and so holds no name twice, however often and in
whatever order the section refers to a variable; and it is the same list for
every order in which the keys of `foundVars` could be ranged over. -/
theorem scan_result_strictly_sorted {δ : Type} (host : Host δ)
    (configFile name : String) (result : List String)
    (h : ScanForEnvVariables host configFile name = .ok (result, none)) :
    List.Sorted (fun a b : String => a < b) result ∧ result.Nodup ∧
    (result = [] ∨ ∃ keys : List String, keys.Nodup ∧
      ∀ order : List String, order.Perm keys → slicesSort order = result) := by
  rcases scan_ok_cases host configFile name result none h with rfl |
    ⟨data, root, mainNode, rest, target, -, -, -, -, rfl, -⟩
  · exact ⟨List.sorted_nil, List.nodup_nil, Or.inl rfl⟩
  · have hnd : (scanNode target []).Nodup := nodup_scanNode target [] List.nodup_nil
    have hs := slicesSort_sorted_lt _ hnd
    refine ⟨hs, (slicesSort_perm _).nodup_iff.2 hnd, Or.inr ⟨scanNode target [], hnd, ?_⟩⟩
    intro order hp
    exact slicesSort_eq_of_perm _ _ hp.symm

/-- Instance of C11: the profile of `TestScanForEnvVariables` that refers to `HOME`
twice. -/
theorem scan_result_strictly_sorted_witness :
    ScanForEnvVariables (hostOf testDocument) "profiles.yaml" "profile-with-vars"
      = .ok (["HOME", "MY_AWS_KEY", "REPO_SUFFIX"], none) ∧
    List.Sorted (fun a b : String => a < b) ["HOME", "MY_AWS_KEY", "REPO_SUFFIX"] :=
  ⟨by decide,
   (scan_result_strictly_sorted (hostOf testDocument) "profiles.yaml" "profile-with-vars"
      ["HOME", "MY_AWS_KEY", "REPO_SUFFIX"] (by decide)).1⟩

/-- C13: a missing section is not an error. When the file reads and decodes to a
well-formed document, and the name is a key of neither a top-level `profiles`
mapping nor a top-level `groups` mapping of its main node (an empty document
has no main node), `ScanForEnvVariables` returns the empty list and a nil
error. -/
theorem scan_missing_section {δ : Type} (host : Host δ) (configFile name : String)
    (data : δ) (root : Node) (hr : host.ReadFile configFile = .ok data)
    (hu : host.Unmarshal data = .ok root) (hwf : root.WellFormed)
    (hkey : ∀ mainNode ∈ root.Content.head?,
      ¬ IsKeyOfSection mainNode "profiles" name ∧ ¬ IsKeyOfSection mainNode "groups" name) :
    ScanForEnvVariables host configFile name = .ok ([], none) := by
  rw [scan_of_root host configFile name data root hr hu]
  rcases hc : root.Content with _ | ⟨mainNode, rest⟩
  · rfl
  · simp only
    obtain ⟨hp, hg⟩ := hkey mainNode (by rw [hc]; simp)
    have hwfm : mainNode.WellFormed :=
      wellFormed_child root mainNode hwf (by rw [hc]; simp)
    have hnone : ∀ top, ¬ IsKeyOfSection mainNode top name →
        findNodeByKey mainNode top name = .ok none := by
      intro top hnot
      rw [findNodeByKey_eq_spec mainNode top name hwfm]
      cases hs : findNodeByKeySpec mainNode top name with
      | none => rfl
      | some v => exact absurd (findNodeByKeySpec_some mainNode top name v hs) hnot
    unfold targetNode
    rw [hnone "profiles" hp]
    simp only
    rw [hnone "groups" hg]

/-- Instances of C13: a name absent from the document of `TestScanForEnvVariables`,
and the empty document. -/
theorem scan_missing_section_witness :
    (testDocument.WellFormed ∧
      (∀ mainNode ∈ testDocument.Content.head?,
        ¬ IsKeyOfSection mainNode "profiles" "non-existent-profile" ∧
        ¬ IsKeyOfSection mainNode "groups" "non-existent-profile") ∧
      ScanForEnvVariables (hostOf testDocument) "profiles.yaml" "non-existent-profile"
        = .ok ([], none)) ∧
    ScanForEnvVariables (hostOf Node.zero) "empty.yaml" "any-profile" = .ok ([], none) :=
  ⟨⟨by decide, by decide,
    scan_missing_section (hostOf testDocument) "profiles.yaml" "non-existent-profile" ()
      testDocument rfl rfl (by decide) (by decide)⟩,
   scan_missing_section (hostOf Node.zero) "empty.yaml" "any-profile" () Node.zero rfl rfl
      (by decide) (by decide)⟩

/-- C14: `ScanForEnvVariables` returns a non-nil error exactly when reading the file
fails or decoding the YAML fails. In the first case the message contains
"failed to read config file" and the error wraps the read error, in the second
the message contains "failed to unmarshal YAML" and the error wraps the decoding
error; in both the returned list is nil. -/
theorem scan_error_iff_read_or_unmarshal_fails {δ : Type} (host : Host δ)
    (configFile name : String) :
    ((∃ l e, ScanForEnvVariables host configFile name = .ok (l, some e)) ↔
      ((∃ e0, host.ReadFile configFile = .error e0) ∨
        ∃ data e0, host.ReadFile configFile = .ok data ∧ host.Unmarshal data = .error e0)) ∧
    (∀ e0, host.ReadFile configFile = .error e0 →
      ∃ e, ScanForEnvVariables host configFile name = .ok ([], some e) ∧
        Contains e.Error "failed to read config file" ∧ e.Unwrap = some e0) ∧
    (∀ data e0, host.ReadFile configFile = .ok data → host.Unmarshal data = .error e0 →
      ∃ e, ScanForEnvVariables host configFile name = .ok ([], some e) ∧
        Contains e.Error "failed to unmarshal YAML" ∧ e.Unwrap = some e0) := by
  have hread : ∀ e0, host.ReadFile configFile = .error e0 →
      ∃ e, ScanForEnvVariables host configFile name = .ok ([], some e) ∧
        Contains e.Error "failed to read config file" ∧ e.Unwrap = some e0 := by
    intro e0 h0
    refine ⟨Errorf ("failed to read config file " ++ configFile ++ ": ") e0, ?_, ?_, rfl⟩
    · unfold ScanForEnvVariables
      simp only [h0]
    · refine ⟨[], (" " ++ configFile ++ ": " ++ e0.Error).data, ?_⟩
      simp [Errorf, GoError.Error, String.data_append]
  have hyaml : ∀ data e0, host.ReadFile configFile = .ok data →
      host.Unmarshal data = .error e0 →
      ∃ e, ScanForEnvVariables host configFile name = .ok ([], some e) ∧
        Contains e.Error "failed to unmarshal YAML" ∧ e.Unwrap = some e0 := by
    intro data e0 hr h0
    refine ⟨Errorf ("failed to unmarshal YAML from " ++ configFile ++ ": ") e0, ?_, ?_, rfl⟩
    · unfold ScanForEnvVariables
      simp only [hr, h0]
    · refine ⟨[], (" from " ++ configFile ++ ": " ++ e0.Error).data, ?_⟩
      simp [Errorf, GoError.Error, String.data_append]
  refine ⟨⟨?_, ?_⟩, hread, hyaml⟩
  · rintro ⟨l, e, h⟩
    rcases hr : host.ReadFile configFile with e0 | data
    · exact Or.inl ⟨e0, rfl⟩
    · rcases hu : host.Unmarshal data with e0 | root
      · exact Or.inr ⟨data, e0, rfl, hu⟩
      · exfalso
        rcases scan_ok_cases host configFile name l (some e) h with hnil |
          ⟨-, -, -, -, -, -, -, -, -, -, herr⟩
        · rw [scan_of_root host configFile name data root hr hu] at h
          rcases hc : root.Content with _ | ⟨mainNode, rest⟩
          · simp [hc] at h
          · simp only [hc] at h
            rcases ht : targetNode mainNode name with t | p
            · rcases t with _ | target
              · simp [ht] at h
              · simp [ht] at h
            · simp [ht] at h
        · cases herr
  · rintro (⟨e0, h0⟩ | ⟨data, e0, hr, h0⟩)
    · obtain ⟨e, he, -⟩ := hread e0 h0
      exact ⟨[], e, he⟩
    · obtain ⟨e, he, -⟩ := hyaml data e0 hr h0
      exact ⟨[], e, he⟩

/-- Instances of C14: a file that cannot be read, and one that does not decode. -/
theorem scan_error_iff_read_or_unmarshal_fails_witness :
    (∃ e, ScanForEnvVariables unreadableHost "/path/to/non/existent/file.yaml" "any-profile"
        = .ok ([], some e) ∧
      Contains e.Error "failed to read config file" ∧
      e.Unwrap = some (GoError.text "no such file or directory")) ∧
    (∃ e, ScanForEnvVariables undecodableHost "invalid.yaml" "profile-1" = .ok ([], some e) ∧
      Contains e.Error "failed to unmarshal YAML" ∧
      e.Unwrap = some (GoError.text "yaml: did not find expected ',' or ']'")) :=
  ⟨(scan_error_iff_read_or_unmarshal_fails unreadableHost
      "/path/to/non/existent/file.yaml" "any-profile").2.1 _ rfl,
   (scan_error_iff_read_or_unmarshal_fails undecodableHost "invalid.yaml" "profile-1").2.2
      () _ rfl rfl⟩

/-- C20: `findNodeByKey` is total on well-formed trees. It returns nil whenever
`root` is not a mapping node; and on a tree all of whose mapping nodes have an
even number of children it does not index out of range and returns what its
description says: nil, or the value paired with the first nested key equal to
`nestedKey` inside the value of the first top-level key equal to `topLevelKey`. -/
theorem findNodeByKey_total_on_wellFormed (root : Node) (topLevelKey nestedKey : String) :
    (root.Kind ≠ MappingNode → findNodeByKey root topLevelKey nestedKey = .ok none) ∧
    (root.WellFormed →
      findNodeByKey root topLevelKey nestedKey
        = .ok (findNodeByKeySpec root topLevelKey nestedKey)) := by
  constructor
  · intro hk
    unfold findNodeByKey
    rw [if_pos hk]
  · exact findNodeByKey_eq_spec root topLevelKey nestedKey

/-- Instance of C20 on the main node of the test document, next to a mapping with
an odd number of children, on which the lookup does index out of range. -/
theorem findNodeByKey_total_on_wellFormed_witness :
    ((map [str "profiles", map [str "p", str ".Env.X"]]).WellFormed ∧
      findNodeByKey (map [str "profiles", map [str "p", str ".Env.X"]]) "profiles" "p"
        = .ok (findNodeByKeySpec (map [str "profiles", map [str "p", str ".Env.X"]])
            "profiles" "p")) ∧
    (¬ (map [str "profiles"]).WellFormed ∧
      findNodeByKey (map [str "profiles"]) "profiles" "p" = .panic .indexOutOfRange) :=
  ⟨⟨by decide,
    (findNodeByKey_total_on_wellFormed (map [str "profiles", map [str "p", str ".Env.X"]])
      "profiles" "p").2 (by decide)⟩,
   ⟨by decide, rfl⟩⟩

/-- C12, as stated, fails. In the section `gatedSection` the texts `.Env.FOO`,
`.Env.HOME` and `.Env.B` each occur in a scalar, with `FOO`, `HOME` and `B`
identifiers, yet none of the three names is in the result: the first scalar
does not carry the tag `!!str`, the second match runs on to `HOME_DIR`, and the
third text lies inside the match `.Env.Env`. -/
theorem scan_misses_textual_occurrences :
    targetNode gatedMain "p" = .ok (some gatedSection) ∧
    ScanForEnvVariables (hostOf gatedDocument) "profiles.yaml" "p"
      = .ok (["Env", "HOME_DIR"], none) ∧
    ("FOO" ∉ ["Env", "HOME_DIR"] ∧
      ∃ m ∈ gatedSection.subtree, m.Kind = ScalarNode ∧ TextOccurs "FOO" m.Value) ∧
    ("HOME" ∉ ["Env", "HOME_DIR"] ∧
      ∃ m ∈ gatedSection.subtree, m.Kind = ScalarNode ∧ TextOccurs "HOME" m.Value) ∧
    ("B" ∉ ["Env", "HOME_DIR"] ∧
      ∃ m ∈ gatedSection.subtree, m.Kind = ScalarNode ∧ TextOccurs "B" m.Value) := by
  refine ⟨rfl, by decide, ⟨by decide, ?_⟩, ⟨by decide, ?_⟩, ⟨by decide, ?_⟩⟩
  · refine ⟨.mk ScalarNode "!vault" ".Env.FOO" [], ?_, rfl, ?_, [], [], rfl⟩
    · simp [gatedSection, map, str, Node.subtree, subtrees]
    · exact ⟨⟨'F', ['O', 'O'], rfl, by decide⟩, by decide⟩
  · refine ⟨str ".Env.HOME_DIR", ?_, rfl, ?_, [], ['_', 'D', 'I', 'R'], rfl⟩
    · simp [gatedSection, map, str, Node.subtree, subtrees]
    · exact ⟨⟨'H', ['O', 'M', 'E'], rfl, by decide⟩, by decide⟩
  · refine ⟨str ".Env.Env.B", ?_, rfl, ?_, ['.', 'E', 'n', 'v'], [], rfl⟩
    · simp [gatedSection, map, str, Node.subtree, subtrees]
    · exact ⟨⟨'B', [], rfl, by decide⟩, by decide⟩

/-- C12, amended: when the section name resolves to a node, `ScanForEnvVariables`
succeeds and a name is in the result if and only if some scalar in the subtree
of that node (at any depth, the node itself and mapping keys included) has the
tag `!!str` and a match of `envVarRegex` in its value that captures the name,
the matches being taken from left to right without overlap and each with the
longest name. Every name in the result is an identifier `N` for which the text
`.Env.N` occurs in such a scalar. -/
theorem scan_mem_iff_captured {δ : Type} (host : Host δ) (configFile name : String)
    (data : δ) (root mainNode : Node) (rest : List Node) (target : Node)
    (hr : host.ReadFile configFile = .ok data) (hu : host.Unmarshal data = .ok root)
    (hc : root.Content = mainNode :: rest)
    (ht : targetNode mainNode name = .ok (some target)) :
    ∃ result, ScanForEnvVariables host configFile name = .ok (result, none) ∧
      (∀ N, N ∈ result ↔ ∃ m ∈ target.subtree, Captures m N) ∧
      (∀ N ∈ result, ∃ m ∈ target.subtree, m.Kind = ScalarNode ∧ TextOccurs N m.Value) := by
  have hmem : ∀ N, N ∈ slicesSort (scanNode target []) ↔
      ∃ m ∈ target.subtree, Captures m N := by
    intro N
    rw [mem_slicesSort, mem_scanNode]
    simp
  refine ⟨slicesSort (scanNode target []), ?_, hmem, ?_⟩
  · rw [scan_of_root host configFile name data root hr hu]
    simp only [hc, ht]
  · intro N hN
    obtain ⟨m, hm, hcap⟩ := (hmem N).1 hN
    obtain ⟨hk, -, ho, -⟩ := captures_occurs m N hcap
    exact ⟨m, hm, hk, ho⟩

/-- Instance of the amended C12 on `gatedDocument`. -/
theorem scan_mem_iff_captured_witness :
    targetNode gatedMain "p" = .ok (some gatedSection) ∧
    ∃ result, ScanForEnvVariables (hostOf gatedDocument) "profiles.yaml" "p"
        = .ok (result, none) ∧
      (∀ N, N ∈ result ↔ ∃ m ∈ gatedSection.subtree, Captures m N) ∧
      (∀ N ∈ result, ∃ m ∈ gatedSection.subtree,
        m.Kind = ScalarNode ∧ TextOccurs N m.Value) :=
  ⟨rfl, scan_mem_iff_captured (hostOf gatedDocument) "profiles.yaml" "p" () gatedDocument
    gatedMain [] gatedSection rfl rfl rfl rfl⟩

/-- C18: every name `ScanForEnvVariables` returns, and every key `scanNode` adds to
an empty `foundVars`, is a valid variable name (not empty, first character a
letter or underscore, the others letters, digits or underscores) and is the
longest such run after a `.Env.` in a scalar of the scanned subtree: no
character of `[A-Za-z0-9_]` follows it there. -/
theorem scan_names_are_longest_identifiers {δ : Type} (host : Host δ)
    (configFile name : String) (result : List String) (err : Option GoError)
    (h : ScanForEnvVariables host configFile name = .ok (result, err)) :
    (∀ N ∈ result, IsIdentifier N ∧
      ∃ data root mainNode rest target, host.ReadFile configFile = .ok data ∧
        host.Unmarshal data = .ok root ∧ root.Content = mainNode :: rest ∧
        targetNode mainNode name = .ok (some target) ∧
        ∃ m ∈ target.subtree, m.Kind = ScalarNode ∧ OccursMaximally N m.Value) ∧
    (∀ (n : Node), ∀ N ∈ scanNode n [], IsIdentifier N ∧
      ∃ m ∈ n.subtree, m.Kind = ScalarNode ∧ OccursMaximally N m.Value) := by
  have hnode : ∀ (n : Node), ∀ N ∈ scanNode n [], IsIdentifier N ∧
      ∃ m ∈ n.subtree, m.Kind = ScalarNode ∧ OccursMaximally N m.Value := by
    intro n N hN
    rw [mem_scanNode] at hN
    rcases hN with hN | ⟨m, hm, hcap⟩
    · simp at hN
    · obtain ⟨hk, hid, -, hmax⟩ := captures_occurs m N hcap
      exact ⟨hid, m, hm, hk, hmax⟩
  refine ⟨?_, hnode⟩
  intro N hN
  rcases scan_ok_cases host configFile name result err h with rfl |
    ⟨data, root, mainNode, rest, target, hr, hu, hc, ht, rfl, -⟩
  · simp at hN
  · rw [mem_slicesSort] at hN
    obtain ⟨hid, m, hm, hk, hmax⟩ := hnode target N hN
    exact ⟨hid, data, root, mainNode, rest, target, hr, hu, hc, ht, m, hm, hk, hmax⟩

/-- Instance of C18: the scalar `.Env.HOME/.restic-password` of the test document
yields exactly `HOME`, and `HOME`, a name of the result, is an identifier. -/
theorem scan_names_are_longest_identifiers_witness :
    FindAllStringSubmatch ".Env.HOME/.restic-password" = [[".Env.HOME", "HOME"]] ∧
    ScanForEnvVariables (hostOf testDocument) "profiles.yaml" "profile-with-vars"
      = .ok (["HOME", "MY_AWS_KEY", "REPO_SUFFIX"], none) ∧
    IsIdentifier "HOME" :=
  ⟨by decide, by decide,
   ((scan_names_are_longest_identifiers (hostOf testDocument) "profiles.yaml"
      "profile-with-vars" ["HOME", "MY_AWS_KEY", "REPO_SUFFIX"] none (by decide)).1
      "HOME" (by decide)).1⟩

/-- C19: the lookup under `profiles` comes before the one under `groups`. When it
finds a node for the name, `ScanForEnvVariables` scans that node alone, whatever
`groups` holds; the lookup under `groups` decides the result exactly when the
one under `profiles` returned nil, which on a well-formed main node means: the
main node is not a mapping or has no `profiles` key, or the value of its first
`profiles` key is not a mapping, or the name is not a key of that mapping. -/
theorem scan_profiles_before_groups {δ : Type} (host : Host δ) (configFile name : String)
    (data : δ) (root mainNode : Node) (rest : List Node)
    (hr : host.ReadFile configFile = .ok data) (hu : host.Unmarshal data = .ok root)
    (hc : root.Content = mainNode :: rest) :
    (∀ profile, findNodeByKey mainNode "profiles" name = .ok (some profile) →
      ScanForEnvVariables host configFile name
        = .ok (slicesSort (scanNode profile []), none)) ∧
    (findNodeByKey mainNode "profiles" name = .ok none →
      ScanForEnvVariables host configFile name
        = match findNodeByKey mainNode "groups" name with
          | .panic p => .panic p
          | .ok none => .ok ([], none)
          | .ok (some group) => .ok (slicesSort (scanNode group []), none)) ∧
    (mainNode.WellFormed →
      (findNodeByKey mainNode "profiles" name = .ok none ↔
        (mainNode.Kind ≠ MappingNode ∨
         (∀ kv ∈ keyValuePairs mainNode.Content, kv.1.Value ≠ "profiles") ∨
         ∃ kv, (keyValuePairs mainNode.Content).find? (fun kv => kv.1.Value = "profiles")
             = some kv ∧
           (kv.2.Kind ≠ MappingNode ∨
            ∀ kv2 ∈ keyValuePairs kv.2.Content, kv2.1.Value ≠ name)))) := by
  refine ⟨?_, ?_, ?_⟩
  · intro profile hp
    rw [scan_of_root host configFile name data root hr hu]
    simp only [hc, targetNode, hp]
  · intro hp
    rw [scan_of_root host configFile name data root hr hu]
    simp only [hc, targetNode, hp]
  · intro hwf
    rw [findNodeByKey_eq_spec mainNode "profiles" name hwf,
      ← findNodeByKeySpec_eq_none_iff mainNode "profiles" name]
    simp

/-- Instance of C19: a profile and a group both named `x`; only the variable of the
profile is returned. -/
theorem scan_profiles_before_groups_witness :
    findNodeByKey shadowedMain "profiles" "x"
      = .ok (some (map [str "repository", str ".Env.FROM_PROFILE"])) ∧
    findNodeByKey shadowedMain "groups" "x"
      = .ok (some (map [str "repository", str ".Env.FROM_GROUP"])) ∧
    ScanForEnvVariables (hostOf shadowedDocument) "profiles.yaml" "x"
      = .ok (slicesSort (scanNode (map [str "repository", str ".Env.FROM_PROFILE"]) []),
          none) ∧
    slicesSort (scanNode (map [str "repository", str ".Env.FROM_PROFILE"]) [])
      = ["FROM_PROFILE"] :=
  ⟨rfl, rfl,
   (scan_profiles_before_groups (hostOf shadowedDocument) "profiles.yaml" "x" ()
      shadowedDocument shadowedMain [] rfl rfl rfl).1 _ rfl,
   by decide⟩

end Envscanner

/-! ## Theorems about `priority/unix.go` -/

namespace Priority

/-- C15: for a priority in [-20, 19] and a value `c` returned by `Getpriority` for
which the `int` subtraction `20 - c` does not wrap: when `Getpriority`
succeeded and `20 - c >= priority`, `SetNice` returns nil, leaves the system as
`Getpriority` left it, and its only system call is that `Getpriority`; in every
other case (`Getpriority` failed, or `20 - c < priority`) it calls
`Setpriority(PRIO_PGRP, 0, priority)` next, on that state, and what it returns
is decided by the result of that call: nil and the state after it when it
succeeds, the wrapped error when it fails other than by `EPERM` or `EACCES`,
and the outcome of `setNewProcessGroup` on the state after it otherwise. -/
theorem setNice_skip_or_setpriority {σ : Type} (u : Unix σ) (priority : Int) (s : σ)
    (hlo : -20 ≤ priority) (hhi : priority ≤ 19) (c : Int) (ge : Option GoError) (s1 : σ)
    (hget : u.Getpriority PRIO_PGRP 0 s = ((c, ge), s1))
    (hc : -(2 : Int) ^ 63 + 21 ≤ c ∧ c < 2 ^ 63) :
    wrapInt64 (20 - c) = 20 - c ∧
    ((ge = none ∧ 20 - c ≥ priority) →
      (SetNice u priority s).err = none ∧
      (SetNice u priority s).state = s1 ∧
      (SetNice u priority s).calls = [Syscall.Getpriority PRIO_PGRP 0]) ∧
    ((ge ≠ none ∨ 20 - c < priority) →
      (∃ rest, (SetNice u priority s).calls
        = Syscall.Getpriority PRIO_PGRP 0 :: Syscall.Setpriority PRIO_PGRP 0 priority
            :: rest) ∧
      (∀ s2, u.Setpriority PRIO_PGRP 0 priority s1 = (none, s2) →
        (SetNice u priority s).err = none ∧
        (SetNice u priority s).state = s2 ∧
        (SetNice u priority s).calls
          = [Syscall.Getpriority PRIO_PGRP 0, Syscall.Setpriority PRIO_PGRP 0 priority]) ∧
      (∀ e s2, u.Setpriority PRIO_PGRP 0 priority s1 = (some e, s2) →
        (e.Is EPERM || e.Is EACCES) = false →
        (SetNice u priority s).err
          = some (Errorf ("cannot set process group priority to " ++ toString priority
              ++ ", restic will run with the default priority: ") e) ∧
        (SetNice u priority s).state = s2 ∧
        (SetNice u priority s).calls
          = [Syscall.Getpriority PRIO_PGRP 0, Syscall.Setpriority PRIO_PGRP 0 priority]) ∧
      (∀ e s2, u.Setpriority PRIO_PGRP 0 priority s1 = (some e, s2) →
        (e.Is EPERM || e.Is EACCES) = true →
        (SetNice u priority s).err = (setNewProcessGroup u priority s2).err ∧
        (SetNice u priority s).state = (setNewProcessGroup u priority s2).state ∧
        (SetNice u priority s).calls
          = Syscall.Getpriority PRIO_PGRP 0 :: Syscall.Setpriority PRIO_PGRP 0 priority
              :: (setNewProcessGroup u priority s2).calls)) := by
  have hrange : ¬ (priority < -20 ∨ priority > 19) := by omega
  refine ⟨?_, ?_, ?_⟩
  · unfold wrapInt64
    omega
  · rintro ⟨hge0, hge⟩
    subst hge0
    unfold SetNice
    rw [if_neg hrange]
    simp only [selfPID, hget]
    rw [if_pos ⟨trivial, hge⟩]
    exact ⟨rfl, rfl, rfl⟩
  · intro hne
    have hskip : ¬ (ge = none ∧ 20 - c ≥ priority) := by
      rintro ⟨he, hge⟩
      rcases hne with hne | hlt
      · exact hne he
      · omega
    refine ⟨?_, ?_, ?_, ?_⟩
    · unfold SetNice
      rw [if_neg hrange]
      simp only [selfPID, hget]
      rw [if_neg hskip]
      rcases u.Setpriority PRIO_PGRP 0 priority s1 with ⟨_ | err, s2⟩
      · exact ⟨[], rfl⟩
      · simp only
        split
        · exact ⟨_, rfl⟩
        · exact ⟨[], rfl⟩
    · intro s2 hset
      unfold SetNice
      rw [if_neg hrange]
      simp only [selfPID, hget]
      rw [if_neg hskip]
      simp only [hset]
      exact ⟨trivial, trivial, trivial⟩
    · intro e s2 hset hperm
      unfold SetNice
      rw [if_neg hrange]
      simp only [selfPID, hget]
      rw [if_neg hskip]
      simp only [hset, hperm, Bool.false_eq_true, if_false]
      exact ⟨trivial, trivial, trivial⟩
    · intro e s2 hset hperm
      unfold SetNice
      rw [if_neg hrange]
      simp only [selfPID, hget]
      rw [if_neg hskip]
      simp only [hset, hperm, if_true]
      exact ⟨trivial, trivial, trivial⟩

/-- Instances of C15: a process group already at nice 15 asked for 10 is left
alone; one at nice 0 asked for 10 gets `Setpriority`, whose success ends the
call in the state that `Setpriority` left. -/
theorem setNice_skip_or_setpriority_witness :
    (((-20 : Int) ≤ 10 ∧ (10 : Int) ≤ 19 ∧ (-(2 : Int) ^ 63 + 21 ≤ 5 ∧ (5 : Int) < 2 ^ 63)) ∧
      (SetNice (scriptedUnix 5 none none) 10 [some EPERM]).err = none ∧
      (SetNice (scriptedUnix 5 none none) 10 [some EPERM]).state = [some EPERM] ∧
      (SetNice (scriptedUnix 5 none none) 10 [some EPERM]).calls
        = [Syscall.Getpriority PRIO_PGRP 0]) ∧
    ((SetNice (scriptedUnix 20 none none) 10 [none, some EPERM]).err = none ∧
      (SetNice (scriptedUnix 20 none none) 10 [none, some EPERM]).state = [some EPERM] ∧
      (SetNice (scriptedUnix 20 none none) 10 [none, some EPERM]).calls
        = [Syscall.Getpriority PRIO_PGRP 0, Syscall.Setpriority PRIO_PGRP 0 10]) :=
  ⟨⟨⟨by decide, by decide, by decide⟩,
    (setNice_skip_or_setpriority (scriptedUnix 5 none none) 10 [some EPERM] (by decide)
      (by decide) 5 none [some EPERM] rfl (by decide)).2.1 ⟨rfl, by decide⟩⟩,
   ((setNice_skip_or_setpriority (scriptedUnix 20 none none) 10 [none, some EPERM]
      (by decide) (by decide) 20 none [none, some EPERM] rfl (by decide)).2.2
      (Or.inr (by decide))).2.1 [some EPERM] rfl⟩

/-- C16: `SetNice` falls back to a new process group only on permission denial.
For an in-range priority that is not skipped: if the first `Setpriority`
succeeds, nil is returned with no further call; if it fails with an error that
is neither `EPERM` nor `EACCES`, an error wrapping it is returned and `Setpgid`
is not called; if it fails with `EPERM` or `EACCES`, `Setpgid(0, 0)` is called,
then, once that has succeeded, `Setpriority` again, and nil is returned exactly
when both succeed. -/
theorem setNice_fallback_on_permission_denial {σ : Type} (u : Unix σ) (priority : Int)
    (s : σ) (hlo : -20 ≤ priority) (hhi : priority ≤ 19) (c : Int) (ge : Option GoError)
    (s1 : σ) (hget : u.Getpriority PRIO_PGRP 0 s = ((c, ge), s1))
    (hneed : ge ≠ none ∨ 20 - c < priority) :
    (∀ s2, u.Setpriority PRIO_PGRP 0 priority s1 = (none, s2) →
      (SetNice u priority s).err = none ∧
      (SetNice u priority s).calls
        = [Syscall.Getpriority PRIO_PGRP 0, Syscall.Setpriority PRIO_PGRP 0 priority]) ∧
    (∀ e s2, u.Setpriority PRIO_PGRP 0 priority s1 = (some e, s2) →
      e.Is EPERM = false → e.Is EACCES = false →
      (∃ msg, (SetNice u priority s).err = some (GoError.wrapped msg e)) ∧
      (SetNice u priority s).calls
        = [Syscall.Getpriority PRIO_PGRP 0, Syscall.Setpriority PRIO_PGRP 0 priority]) ∧
    (∀ e s2, u.Setpriority PRIO_PGRP 0 priority s1 = (some e, s2) →
      (e.Is EPERM = true ∨ e.Is EACCES = true) →
      (SetNice u priority s).calls
        = Syscall.Getpriority PRIO_PGRP 0 :: Syscall.Setpriority PRIO_PGRP 0 priority ::
            Syscall.Setpgid 0 0 ::
              (if (u.Setpgid 0 0 s2).1 = none then [Syscall.Setpriority PRIO_PGRP 0 priority]
               else []) ∧
      ((SetNice u priority s).err = none ↔
        ((u.Setpgid 0 0 s2).1 = none ∧
          (u.Setpriority PRIO_PGRP 0 priority (u.Setpgid 0 0 s2).2).1 = none))) := by
  have hrange : ¬ (priority < -20 ∨ priority > 19) := by omega
  have hskip : ¬ (ge = none ∧ 20 - c ≥ priority) := by
    rintro ⟨he, hge⟩
    rcases hneed with hne | hlt
    · exact hne he
    · omega
  refine ⟨?_, ?_, ?_⟩
  · intro s2 hset
    unfold SetNice
    rw [if_neg hrange]
    simp only [selfPID, hget]
    rw [if_neg hskip]
    simp only [hset]
    exact ⟨trivial, trivial⟩
  · intro e s2 hset h1 h2
    unfold SetNice
    rw [if_neg hrange]
    simp only [selfPID, hget]
    rw [if_neg hskip]
    simp only [hset, h1, h2, Bool.or_self, Bool.false_eq_true, if_false]
    exact ⟨⟨_, rfl⟩, trivial⟩
  · intro e s2 hset hperm
    have hor : (e.Is EPERM || e.Is EACCES) = true := by
      rcases hperm with h | h <;> simp [h]
    unfold SetNice
    rw [if_neg hrange]
    simp only [selfPID, hget]
    rw [if_neg hskip]
    simp only [hset, hor, if_true]
    unfold setNewProcessGroup
    simp only [selfPID]
    rcases hpg : u.Setpgid 0 0 s2 with ⟨_ | pe, s3⟩
    · simp only [if_true]
      rcases hsp : u.Setpriority PRIO_PGRP 0 priority s3 with ⟨_ | se, s4⟩
      · simp
      · simp
    · simp

/-- Instances of C16: `Setpriority` denied with `EPERM`, then `Setpgid` and the
second `Setpriority` succeed. -/
theorem setNice_fallback_on_permission_denial_witness :
    (SetNice (scriptedUnix 20 none none) 10 [some EPERM, none]).calls
      = [Syscall.Getpriority PRIO_PGRP 0, Syscall.Setpriority PRIO_PGRP 0 10,
         Syscall.Setpgid 0 0, Syscall.Setpriority PRIO_PGRP 0 10] ∧
    (SetNice (scriptedUnix 20 none none) 10 [some EPERM, none]).err = none :=
  ⟨((setNice_fallback_on_permission_denial (scriptedUnix 20 none none) 10
      [some EPERM, none] (by decide) (by decide) 20 none [some EPERM, none] rfl
      (Or.inr (by decide))).2.2 EPERM [none] rfl (Or.inl (by decide))).1,
   ((setNice_fallback_on_permission_denial (scriptedUnix 20 none none) 10
      [some EPERM, none] (by decide) (by decide) 20 none [some EPERM, none] rfl
      (Or.inr (by decide))).2.2 EPERM [none] rfl (Or.inl (by decide))).2.2
      ⟨rfl, rfl⟩⟩

/-- C17: for every priority below -20 or above 19, `SetNice`, and `SetClass` with
it, returns the "unexpected priority value" error and makes no system call; for
every priority in [-20, 19] an error it returns is never that one: it wraps the
error of a system call. -/
theorem setNice_rejects_out_of_range {σ : Type} (u : Unix σ) (priority : Int) (s : σ) :
    ((priority < -20 ∨ priority > 19) →
      (SetNice u priority s).err
        = some (GoError.text ("unexpected priority value " ++ toString priority)) ∧
      (SetNice u priority s).calls = [] ∧
      (SetClass u priority s).err
        = some (GoError.text ("unexpected priority value " ++ toString priority)) ∧
      (SetClass u priority s).calls = []) ∧
    ((-20 ≤ priority ∧ priority ≤ 19) →
      ∀ e, (SetNice u priority s).err = some e →
        (∃ msg inner, e = GoError.wrapped msg inner) ∧
        e ≠ GoError.text ("unexpected priority value " ++ toString priority)) := by
  constructor
  · intro hout
    unfold SetClass SetNice
    rw [if_pos hout]
    exact ⟨rfl, rfl, rfl, rfl⟩
  · rintro ⟨hlo, hhi⟩ e he
    have hrange : ¬ (priority < -20 ∨ priority > 19) := by omega
    have hw : ∃ msg inner, e = GoError.wrapped msg inner := by
      unfold SetNice at he
      rw [if_neg hrange] at he
      rcases hg : u.Getpriority PRIO_PGRP selfPID s with ⟨⟨c, ge⟩, s1⟩
      simp only [hg] at he
      split at he
      · cases he
      · rcases hsp : u.Setpriority PRIO_PGRP selfPID priority s1 with ⟨_ | se, s2⟩
        · simp only [hsp] at he
          cases he
        · simp only [hsp] at he
          split at he
          · unfold setNewProcessGroup at he
            rcases hpg : u.Setpgid selfPID 0 s2 with ⟨_ | pe, s3⟩
            · simp only [hpg] at he
              rcases hsp2 : u.Setpriority PRIO_PGRP selfPID priority s3 with ⟨_ | se2, s4⟩
              · simp only [hsp2] at he
                cases he
              · simp only [hsp2, Option.some.injEq] at he
                exact ⟨_, _, he.symm⟩
            · simp only [hpg, Option.some.injEq] at he
              exact ⟨_, _, he.symm⟩
          · simp only [Option.some.injEq] at he
            exact ⟨_, _, he.symm⟩
    refine ⟨hw, ?_⟩
    obtain ⟨msg, inner, rfl⟩ := hw
    intro h
    cases h

/-- Instances of C17: priority 25 is rejected without a system call; priority 10
with a `Setpriority` that fails returns a wrapping error. -/
theorem setNice_rejects_out_of_range_witness :
    (((25 : Int) < -20 ∨ (25 : Int) > 19) ∧
      (SetNice (scriptedUnix 20 none none) 25 []).calls = []) ∧
    (((-20 : Int) ≤ 10 ∧ (10 : Int) ≤ 19) ∧
      ∃ msg inner, (SetNice (scriptedUnix 20 none none) 10 [some (GoError.errno 22)]).err
        = some (GoError.wrapped msg inner)) :=
  ⟨⟨by decide,
    ((setNice_rejects_out_of_range (scriptedUnix 20 none none) 25 []).1 (by decide)).2.1⟩,
   ⟨by decide,
    ⟨_, GoError.errno 22, rfl⟩⟩⟩

end Priority

/-! ## Token normalisation in `schedule/permission.go` -/

/-- C21: token normalisation is idempotent. For every string `t`, converting
`PermissionFromConfig t` to its token with `String` and resolving that token
again gives `PermissionFromConfig t`; the alias `SchedulePermissionUserLoggedIn`
and `SchedulePermissionUserLoggedOn` both resolve to `PermissionUserLoggedOn`,
whose `String()` is `SchedulePermissionUserLoggedOn`. -/
theorem permissionFromConfig_string_idempotent (c : Constants) (hc : c.Distinct) :
    (∀ t : String,
      PermissionFromConfig c (Permission.String c (PermissionFromConfig c t))
        = PermissionFromConfig c t) ∧
    PermissionFromConfig c c.SchedulePermissionUserLoggedIn = PermissionUserLoggedOn ∧
    PermissionFromConfig c c.SchedulePermissionUserLoggedOn = PermissionUserLoggedOn ∧
    Permission.String c PermissionUserLoggedOn = c.SchedulePermissionUserLoggedOn := by
  obtain ⟨h1, h2, h3, h4, h5, h6, h7, h8, h9, h10⟩ := hc
  have e0 : Permission.String c PermissionAuto = c.SchedulePermissionAuto := by
    simp [Permission.String, PermissionAuto, PermissionUserLoggedOn,
      PermissionUserBackground, PermissionSystem]
  have e1 : Permission.String c PermissionSystem = c.SchedulePermissionSystem := by
    simp [Permission.String]
  have e2 : Permission.String c PermissionUserBackground = c.SchedulePermissionUser := by
    simp [Permission.String, PermissionUserBackground, PermissionSystem]
  have e3 : Permission.String c PermissionUserLoggedOn
      = c.SchedulePermissionUserLoggedOn := by
    simp [Permission.String, PermissionUserLoggedOn, PermissionUserBackground,
      PermissionSystem]
  have r0 : PermissionFromConfig c c.SchedulePermissionAuto = PermissionAuto := by
    simp [PermissionFromConfig, h7, h8, h9, h10]
  have r1 : PermissionFromConfig c c.SchedulePermissionSystem = PermissionSystem := by
    simp [PermissionFromConfig]
  have r2 : PermissionFromConfig c c.SchedulePermissionUser = PermissionUserBackground := by
    simp [PermissionFromConfig, Ne.symm h1]
  have r3 : PermissionFromConfig c c.SchedulePermissionUserLoggedOn
      = PermissionUserLoggedOn := by
    simp [PermissionFromConfig, Ne.symm h3, Ne.symm h5]
  have r4 : PermissionFromConfig c c.SchedulePermissionUserLoggedIn
      = PermissionUserLoggedOn := by
    simp [PermissionFromConfig, Ne.symm h2, Ne.symm h4]
  refine ⟨?_, r4, r3, e3⟩
  intro t
  have hcases : PermissionFromConfig c t = PermissionSystem ∨
      PermissionFromConfig c t = PermissionUserBackground ∨
      PermissionFromConfig c t = PermissionUserLoggedOn ∨
      PermissionFromConfig c t = PermissionAuto := by
    unfold PermissionFromConfig
    split_ifs
    · exact Or.inl rfl
    · exact Or.inr (Or.inl rfl)
    · exact Or.inr (Or.inr (Or.inl rfl))
    · exact Or.inr (Or.inr (Or.inr rfl))
  rcases hcases with h | h | h | h
  · rw [h, e1, r1]
  · rw [h, e2, r2]
  · rw [h, e3, r3]
  · rw [h, e0, r0]

/-- Instance of C21 at the concrete tokens: the alias `user_logged_in` is
normalised to `user_logged_on`, which resolves to the same permission. -/
theorem permissionFromConfig_string_idempotent_witness :
    constants.Distinct ∧
    Permission.String constants (PermissionFromConfig constants "user_logged_in")
      = "user_logged_on" ∧
    PermissionFromConfig constants
        (Permission.String constants (PermissionFromConfig constants "user_logged_in"))
      = PermissionFromConfig constants "user_logged_in" :=
  ⟨by decide, by decide,
    (permissionFromConfig_string_idempotent constants (by decide)).1 "user_logged_in"⟩

end Resticprofile
